import Mathlib

/-!
Verification development for the 3d-crossword application (`src/src/App.tsx`,
second generation of the app: the `SolveCrossword` / `CreateCrossword` routes).

The TypeScript source is shallowly embedded:
  * a JS string of letters is a `List Char` (the blank is `' '`, the conflict
    marker is `'?'`);
  * a lattice coordinate is a triple of integers; the source keys its `Map`s
    by the string `"${x} ${y} ${z}"`, which is injective on integer triples,
    so the embedding keys maps by the coordinate itself;
  * a JS `Map` is an association list in insertion order: `Map.set` replaces
    the value in place when the key is present and appends otherwise, and
    `Map.get` returns the first (unique) matching entry — exactly JS
    semantics, including the iteration order of `values()`;
  * the opacity/emphasis weight (JS numbers 1.0 and 0.1 combined only with
    `Math.max`) is a rational number; on the two values that actually occur
    this is order-isomorphic to the JS floats;
  * JS array accesses the source performs only on indices it has just checked
    (or that the UI guarantees) are modelled by `List.getD` with a default;
    theorems about the editor reducer are stated for well-formed action
    sequences, i.e. those the UI can actually dispatch.
-/

namespace Crossword3d

/-- A lattice coordinate: the JS tuple `[number, number, number]`. -/
structure Coord where
  x : Int
  y : Int
  z : Int
deriving DecidableEq, Repr

/-- The three word directions `"X" | "Y" | "Z"`. -/
inductive Direction where
  | X
  | Y
  | Z
deriving DecidableEq, Repr

/-- `wordLetterPosition` from `App.tsx` (lines 1178–1194): the coordinate of
letter `index` of a word starting at `start` along `direction`.  The index is
an integer because the source also calls it with negative indices
(`-Math.floor(word.length / 2)`) and with `word.length - 1` for a possibly
empty word. -/
def wordLetterPosition (start : Coord) (direction : Direction) (index : Int) : Coord :=
  match direction with
  | .X => ⟨start.x + index, start.y, start.z⟩
  | .Y => ⟨start.x, start.y - index, start.z⟩
  | .Z => ⟨start.x, start.y, start.z + index⟩

/-- The `Word` record of the authoring model. -/
structure Word where
  word : List Char
  direction : Direction
  start : Coord
  description : List Char
deriving DecidableEq, Repr

/-- The `Crossword` record: a name and an ordered word list. -/
structure Crossword where
  name : List Char
  words : List Word
deriving DecidableEq, Repr

/-- Default used to model JS array indexing that the source only performs at
valid indices. -/
def dfltWord : Word := ⟨[], .X, ⟨0, 0, 0⟩, []⟩

/-! ### The JS `Map` keyed by a coordinate -/

/-- `Map.get`: first entry with the given key (keys are unique because
entries are only ever created through `mapSet`). -/
def mapGet {α : Type} (m : List (Coord × α)) (p : Coord) : Option α :=
  match m with
  | [] => none
  | (k, v) :: rest => if k = p then some v else mapGet rest p

/-- `Map.set`: replace in place when the key is present, append otherwise
(JS `Map` keeps insertion order). -/
def mapSet {α : Type} (m : List (Coord × α)) (p : Coord) (v : α) : List (Coord × α) :=
  match m with
  | [] => [(p, v)]
  | (k, w) :: rest => if k = p then (p, v) :: rest else (k, w) :: mapSet rest p v

theorem mapGet_mapSet_self {α : Type} (m : List (Coord × α)) (p : Coord) (v : α) :
    mapGet (mapSet m p v) p = some v := by
  induction m with
  | nil => simp [mapGet, mapSet]
  | cons kv rest ih =>
    obtain ⟨k, w⟩ := kv
    by_cases h : k = p
    · simp [mapGet, mapSet, h]
    · simp [mapGet, mapSet, h, ih]

theorem mapGet_mapSet_ne {α : Type} (m : List (Coord × α)) {p q : Coord} (v : α)
    (h : p ≠ q) : mapGet (mapSet m p v) q = mapGet m q := by
  induction m with
  | nil => simp [mapGet, mapSet, h]
  | cons kv rest ih =>
    obtain ⟨k, w⟩ := kv
    by_cases hk : k = p
    · subst hk
      simp [mapGet, mapSet, h]
    · by_cases hq : k = q
      · subst hq
        simp [mapGet, mapSet, hk, Ne.symm h]
      · simp [mapGet, mapSet, hk, hq, ih]

theorem mem_of_mapGet_eq_some {α : Type} {m : List (Coord × α)} {p : Coord} {v : α}
    (h : mapGet m p = some v) : (p, v) ∈ m := by
  induction m with
  | nil => simp [mapGet] at h
  | cons kv rest ih =>
    obtain ⟨k, w⟩ := kv
    by_cases hk : k = p
    · subst hk
      simp [mapGet] at h
      simp [h]
    · simp [mapGet, hk] at h
      exact List.mem_cons_of_mem _ (ih h)

/-! ### The lattice reconciler of `CreateCrossword` (App.tsx 2549–2616) -/

/-- One entry of the `letters` map built by `CreateCrossword`. -/
structure LetterEntry where
  letter : Char
  position : Coord
  opacity : ℚ
  lettersBy : List Nat
deriving DecidableEq, Repr

abbrev LetterMap := List (Coord × LetterEntry)

/-- The opacity contributed by word `wordIndex`:
`currentWordIndex === null || currentWordIndex === wordIndex ? 1.0 : 0.1`. -/
def wordOpacity (currentWordIndex : Option Nat) (wordIndex : Nat) : ℚ :=
  if currentWordIndex = none ∨ currentWordIndex = some wordIndex then 1 else 1 / 10

/-- The body of the reconciler's inner loop: place character `c` of word
`wordIndex` at coordinate `p` (App.tsx 2563–2614). -/
def placeLetter (currentWordIndex : Option Nat) (letters : LetterMap)
    (wordIndex : Nat) (c : Char) (p : Coord) : LetterMap :=
  match mapGet letters p with
  | none =>
      -- No entry for this position.
      mapSet letters p ⟨c, p, wordOpacity currentWordIndex wordIndex, [wordIndex]⟩
  | some entry =>
      if entry.letter = ' ' then
        -- Entry exists but is a space so we can put our letter.
        mapSet letters p
          ⟨c, p, max (wordOpacity currentWordIndex wordIndex) entry.opacity,
            entry.lettersBy ++ [wordIndex]⟩
      else if c = ' ' ∨ entry.letter = c then
        -- Either our letter is a space or it equals the current letter.
        mapSet letters p
          ⟨entry.letter, p, max (wordOpacity currentWordIndex wordIndex) entry.opacity,
            entry.lettersBy ++ [wordIndex]⟩
      else
        -- The letters don't match.
        mapSet letters p
          ⟨'?', p, max (wordOpacity currentWordIndex wordIndex) entry.opacity,
            entry.lettersBy ++ [wordIndex]⟩

/-- The inner `for (let i = 0; i < word.length; i++)` loop for one word. -/
def placeWord (currentWordIndex : Option Nat) (letters : LetterMap)
    (wordIndex : Nat) (w : Word) : LetterMap :=
  (List.range w.word.length).foldl
    (fun m i =>
      placeLetter currentWordIndex m wordIndex (w.word.getD i ' ')
        (wordLetterPosition w.start w.direction (i : Int)))
    letters

/-- The full reconciler: `words.forEach((word, wordIndex) => ...)` starting
from an empty map. -/
def createLetters (currentWordIndex : Option Nat) (ws : List Word) : LetterMap :=
  ws.enum.foldl (fun m iw => placeWord currentWordIndex m iw.1 iw.2) []

/-! #### Flattened view of the reconciler

The nested loops visit a flat sequence of placements
`(wordIndex, character, coordinate)`; folding `placeLetter` over that
sequence is the same computation. -/

/-- The placements of a single word, in loop order. -/
def wordPlacements (wordIndex : Nat) (w : Word) : List (Nat × Char × Coord) :=
  (List.range w.word.length).map
    (fun i => (wordIndex, w.word.getD i ' ', wordLetterPosition w.start w.direction (i : Int)))

/-- All placements of a word list, in loop order. -/
def allPlacements (ws : List Word) : List (Nat × Char × Coord) :=
  (ws.enum.map (fun iw => wordPlacements iw.1 iw.2)).flatten

/-- `placeLetter` uncurried over a placement triple. -/
def placeOne (currentWordIndex : Option Nat) (m : LetterMap) (t : Nat × Char × Coord) :
    LetterMap :=
  placeLetter currentWordIndex m t.1 t.2.1 t.2.2

theorem placeWord_eq_foldl (currentWordIndex : Option Nat) (letters : LetterMap)
    (wordIndex : Nat) (w : Word) :
    placeWord currentWordIndex letters wordIndex w =
      (wordPlacements wordIndex w).foldl (placeOne currentWordIndex) letters := by
  simp [placeWord, wordPlacements, List.foldl_map, placeOne]

theorem createLetters_eq_foldl (currentWordIndex : Option Nat) (ws : List Word) :
    createLetters currentWordIndex ws =
      (allPlacements ws).foldl (placeOne currentWordIndex) [] := by
  simp only [createLetters, allPlacements, List.foldl_flatten, List.foldl_map]
  exact List.foldl_ext _ _ _ (fun m iw _ => placeWord_eq_foldl _ m iw.1 iw.2)

/-! #### Per-coordinate letter resolution

At a fixed coordinate the reconciler's branches only look at the stored
letter and the incoming character, so the stored letter evolves by
`resolveStep` over the sequence of characters placed there. -/

/-- One step of letter resolution at a fixed coordinate. -/
def resolveStep (s : Option Char) (c : Char) : Option Char :=
  match s with
  | none => some c
  | some l => if l = ' ' then some c else if c = ' ' ∨ l = c then some l else some '?'

/-- The resolved letter for a sequence of characters placed at one
coordinate (in placement order). -/
def resolveChars (cs : List Char) : Option Char :=
  cs.foldl resolveStep none

/-- The placements of `ts` that land on coordinate `p`, keeping the word
index and the character. -/
def placementsAt (ts : List (Nat × Char × Coord)) (p : Coord) : List (Nat × Char) :=
  ts.filterMap (fun t => if t.2.2 = p then some (t.1, t.2.1) else none)

theorem placementsAt_append (ts us : List (Nat × Char × Coord)) (p : Coord) :
    placementsAt (ts ++ us) p = placementsAt ts p ++ placementsAt us p := by
  simp [placementsAt]

theorem placeLetter_of_none {currentWordIndex : Option Nat} {letters : LetterMap}
    {p : Coord} (wordIndex : Nat) (c : Char) (h : mapGet letters p = none) :
    placeLetter currentWordIndex letters wordIndex c p =
      mapSet letters p ⟨c, p, wordOpacity currentWordIndex wordIndex, [wordIndex]⟩ := by
  simp [placeLetter, h]

theorem placeLetter_of_some {currentWordIndex : Option Nat} {letters : LetterMap}
    {p : Coord} {entry : LetterEntry} (wordIndex : Nat) (c : Char)
    (h : mapGet letters p = some entry) :
    placeLetter currentWordIndex letters wordIndex c p =
      if entry.letter = ' ' then
        mapSet letters p
          ⟨c, p, max (wordOpacity currentWordIndex wordIndex) entry.opacity,
            entry.lettersBy ++ [wordIndex]⟩
      else if c = ' ' ∨ entry.letter = c then
        mapSet letters p
          ⟨entry.letter, p, max (wordOpacity currentWordIndex wordIndex) entry.opacity,
            entry.lettersBy ++ [wordIndex]⟩
      else
        mapSet letters p
          ⟨'?', p, max (wordOpacity currentWordIndex wordIndex) entry.opacity,
            entry.lettersBy ++ [wordIndex]⟩ := by
  simp [placeLetter, h]

/-- After `placeLetter` at some coordinate, the entry at that coordinate is a
`mapSet` of a single entry whose fields follow the branch taken; at every
other coordinate the map is unchanged. -/
theorem mapGet_placeLetter_ne {currentWordIndex : Option Nat} (letters : LetterMap)
    (wordIndex : Nat) (c : Char) {q p : Coord} (hqp : q ≠ p) :
    mapGet (placeLetter currentWordIndex letters wordIndex c q) p = mapGet letters p := by
  cases h : mapGet letters q with
  | none =>
    rw [placeLetter_of_none _ _ h]
    exact mapGet_mapSet_ne _ _ hqp
  | some entry =>
    rw [placeLetter_of_some _ _ h]
    by_cases h1 : entry.letter = ' '
    · rw [if_pos h1]
      exact mapGet_mapSet_ne _ _ hqp
    · rw [if_neg h1]
      by_cases h2 : c = ' ' ∨ entry.letter = c
      · rw [if_pos h2]
        exact mapGet_mapSet_ne _ _ hqp
      · rw [if_neg h2]
        exact mapGet_mapSet_ne _ _ hqp

/-- Invariant of the reconciler fold at a fixed coordinate `p`: the map has
an entry at `p` exactly when some placement landed there, and then its
letter is the resolution of the characters placed at `p` in order, its
contributor list is the word indices that placed there in order, and its
stored position is `p`. -/
theorem fold_placeOne_char (currentWordIndex : Option Nat) (ts : List (Nat × Char × Coord))
    (p : Coord) :
    (mapGet (ts.foldl (placeOne currentWordIndex) []) p = none ∧ placementsAt ts p = []) ∨
      (∃ e, mapGet (ts.foldl (placeOne currentWordIndex) []) p = some e ∧
        some e.letter = resolveChars ((placementsAt ts p).map Prod.snd) ∧
        e.lettersBy = (placementsAt ts p).map Prod.fst ∧
        e.position = p) := by
  induction ts using List.reverseRecOn with
  | nil => exact .inl ⟨rfl, rfl⟩
  | append_singleton ts t ih =>
    rw [List.foldl_append, List.foldl_cons, List.foldl_nil]
    by_cases hp : t.2.2 = p
    · -- the new placement lands on `p`
      have hat : placementsAt (ts ++ [t]) p = placementsAt ts p ++ [(t.1, t.2.1)] := by
        simp [placementsAt_append, placementsAt, hp]
      rcases ih with ⟨hget, hempty⟩ | ⟨e, hget, hletter, hby, hpos⟩
      · rw [placeOne, hp]
        rw [placeLetter_of_none _ _ hget]
        refine .inr ⟨_, mapGet_mapSet_self _ _ _, ?_, ?_, rfl⟩
        · simp [hat, hempty, resolveChars, resolveStep]
        · simp [hat, hempty]
      · rw [placeOne, hp]
        rw [placeLetter_of_some _ _ hget]
        have hres : resolveChars ((placementsAt (ts ++ [t]) p).map Prod.snd) =
            resolveStep (some e.letter) t.2.1 := by
          rw [hat, List.map_append, resolveChars, List.foldl_append]
          rw [resolveChars] at hletter
          simp [← hletter]
        by_cases h1 : e.letter = ' '
        · rw [if_pos h1]
          refine .inr ⟨_, mapGet_mapSet_self _ _ _, ?_, ?_, rfl⟩
          · rw [hres, resolveStep, if_pos h1]
          · simp [hat, hby]
        · rw [if_neg h1]
          by_cases h2 : t.2.1 = ' ' ∨ e.letter = t.2.1
          · rw [if_pos h2]
            refine .inr ⟨_, mapGet_mapSet_self _ _ _, ?_, ?_, rfl⟩
            · rw [hres, resolveStep, if_neg h1, if_pos h2]
            · simp [hat, hby]
          · rw [if_neg h2]
            refine .inr ⟨_, mapGet_mapSet_self _ _ _, ?_, ?_, rfl⟩
            · rw [hres, resolveStep, if_neg h1, if_neg h2]
            · simp [hat, hby]
    · -- the new placement lands elsewhere: nothing changes at `p`
      have hat : placementsAt (ts ++ [t]) p = placementsAt ts p := by
        simp [placementsAt_append, placementsAt, hp]
      rw [placeOne, mapGet_placeLetter_ne _ _ _ hp, hat]
      exact ih

/-! #### Facts about letter resolution -/

/-- `resolveFrom s cs` resumes resolution from an intermediate state. -/
def resolveFrom (s : Option Char) (cs : List Char) : Option Char :=
  cs.foldl resolveStep s

theorem resolveChars_eq_resolveFrom (cs : List Char) :
    resolveChars cs = resolveFrom none cs := rfl

theorem resolveFrom_append (s : Option Char) (cs ds : List Char) :
    resolveFrom s (cs ++ ds) = resolveFrom (resolveFrom s cs) ds := by
  simp [resolveFrom]

/-- Once a coordinate holds the conflict marker it stays conflicted. -/
theorem resolveFrom_conflict (cs : List Char) :
    resolveFrom (some '?') cs = some '?' := by
  induction cs with
  | nil => rfl
  | cons c cs ih =>
    have hstep : resolveStep (some '?') c = some '?' := by
      rw [resolveStep]
      split_ifs with h1 h2
      · exact absurd h1 (by decide)
      · rfl
      · rfl
    rw [resolveFrom, List.foldl_cons, hstep]
    exact ih

/-- Feeding a non-blank character either installs it or conflicts. -/
theorem resolveStep_nonblank (s : Option Char) {c : Char} (hc : c ≠ ' ') :
    resolveStep s c = some c ∨ resolveStep s c = some '?' := by
  cases s with
  | none => exact .inl rfl
  | some l =>
    rw [resolveStep]
    split_ifs with h1 h2
    · exact .inl rfl
    · rcases h2 with h2 | h2
      · exact absurd h2 hc
      · exact .inl (by rw [h2])
    · exact .inr rfl

/-- From a non-blank state, the state can only stay or become the marker. -/
theorem resolveStep_stable {l : Char} (hl : l ≠ ' ') (c : Char) :
    resolveStep (some l) c = some l ∨ resolveStep (some l) c = some '?' := by
  rw [resolveStep]
  split_ifs with h1 h2
  · exact absurd h1 hl
  · exact .inl rfl
  · exact .inr rfl

/-- If the state holds non-blank `z` and a different non-blank `b` still has
to be placed, resolution ends in the conflict marker. -/
theorem resolveFrom_conflict_of_mem {z b : Char} (hz : z ≠ ' ') (hb : b ≠ ' ')
    (hzb : b ≠ z) : ∀ cs : List Char, b ∈ cs → resolveFrom (some z) cs = some '?' := by
  intro cs
  induction cs with
  | nil => intro h; simp at h
  | cons c cs ih =>
    intro hmem
    rw [resolveFrom, List.foldl_cons]
    by_cases hcb : c = b
    · subst hcb
      have hstep : resolveStep (some z) c = some '?' := by
        rw [resolveStep, if_neg hz, if_neg]
        push_neg
        exact ⟨hb, fun h => hzb h.symm⟩
      rw [hstep]
      exact resolveFrom_conflict cs
    · have hmem' : b ∈ cs := by
        rcases List.mem_cons.1 hmem with h | h
        · exact absurd h.symm hcb
        · exact h
      rcases resolveStep_stable hz c with h | h
      · rw [h]; exact ih hmem'
      · rw [h]; exact resolveFrom_conflict cs

/-- Two differing non-blank characters among the placements at a coordinate
force the conflict marker, whatever else is placed there and in whatever
order. -/
theorem resolveFrom_conflict_of_two {a b : Char} (ha : a ≠ ' ') (hb : b ≠ ' ')
    (hab : a ≠ b) : ∀ (cs : List Char) (s : Option Char), a ∈ cs → b ∈ cs →
      resolveFrom s cs = some '?' := by
  intro cs
  induction cs with
  | nil => intro s h; simp at h
  | cons c cs ih =>
    intro s hmemA hmemB
    rw [resolveFrom, List.foldl_cons]
    by_cases hca : c = a
    · subst hca
      have hbcs : b ∈ cs := by
        rcases List.mem_cons.1 hmemB with h | h
        · exact absurd h.symm hab
        · exact h
      rcases resolveStep_nonblank s ha with h | h
      · rw [h]; exact resolveFrom_conflict_of_mem ha hb (Ne.symm hab) cs hbcs
      · rw [h]; exact resolveFrom_conflict cs
    · by_cases hcb : c = b
      · subst hcb
        have hacs : a ∈ cs := by
          rcases List.mem_cons.1 hmemA with h | h
          · exact absurd h.symm hca
          · exact h
        rcases resolveStep_nonblank s hb with h | h
        · rw [h]; exact resolveFrom_conflict_of_mem hb ha hab cs hacs
        · rw [h]; exact resolveFrom_conflict cs
      · have hacs : a ∈ cs := by
          rcases List.mem_cons.1 hmemA with h | h
          · exact absurd h.symm hca
          · exact h
        have hbcs : b ∈ cs := by
          rcases List.mem_cons.1 hmemB with h | h
          · exact absurd h.symm hcb
          · exact h
        exact ih _ hacs hbcs

/-! #### The reconciler through the per-coordinate view -/

/-- The (word index, character) pairs the reconciler places at `p`, in
processing order. -/
def reconciledPlacements (ws : List Word) (p : Coord) : List (Nat × Char) :=
  placementsAt (allPlacements ws) p

/-- The resolved letter the reconciler stores at `p` (if any). -/
def letterAt (currentWordIndex : Option Nat) (ws : List Word) (p : Coord) : Option Char :=
  (mapGet (createLetters currentWordIndex ws) p).map LetterEntry.letter

theorem letterAt_eq (currentWordIndex : Option Nat) (ws : List Word) (p : Coord) :
    letterAt currentWordIndex ws p =
      resolveChars ((reconciledPlacements ws p).map Prod.snd) := by
  rw [letterAt, createLetters_eq_foldl]
  rcases fold_placeOne_char currentWordIndex (allPlacements ws) p with
    ⟨hget, hempty⟩ | ⟨e, hget, hletter, -, -⟩
  · rw [hget, reconciledPlacements, hempty]
    rfl
  · rw [hget, reconciledPlacements, ← hletter]
    rfl

theorem lettersByAt_eq (currentWordIndex : Option Nat) (ws : List Word) (p : Coord)
    {e : LetterEntry} (hget : mapGet (createLetters currentWordIndex ws) p = some e) :
    e.lettersBy = (reconciledPlacements ws p).map Prod.fst := by
  rcases fold_placeOne_char currentWordIndex (allPlacements ws) p with
    ⟨hnone, -⟩ | ⟨e', hget', -, hby, -⟩
  · rw [createLetters_eq_foldl] at hget
    rw [hget] at hnone
    exact absurd hnone (by simp)
  · rw [createLetters_eq_foldl] at hget
    rw [hget] at hget'
    cases hget'
    exact hby

/-- Letter `j` of word `i` lands among the placements at its coordinate. -/
theorem mem_reconciledPlacements {ws : List Word} {i j : Nat} {p : Coord}
    (hi : i < ws.length) (hj : j < (ws.getD i dfltWord).word.length)
    (hp : wordLetterPosition (ws.getD i dfltWord).start (ws.getD i dfltWord).direction
        (j : Int) = p) :
    (i, (ws.getD i dfltWord).word.getD j ' ') ∈ reconciledPlacements ws p := by
  set w := ws.getD i dfltWord with hw
  have henum : (i, w) ∈ ws.enum := by
    rw [List.mk_mem_enum_iff_getElem?]
    rw [hw, List.getD_eq_getElem?_getD, List.getElem?_eq_getElem hi]
    rfl
  have hplc : (i, w.word.getD j ' ', p) ∈ wordPlacements i w := by
    rw [← hp, wordPlacements]
    exact List.mem_map_of_mem _ (List.mem_range.2 hj)
  have hall : (i, w.word.getD j ' ', p) ∈ allPlacements ws := by
    rw [allPlacements]
    exact List.mem_flatten.2 ⟨wordPlacements i w,
      List.mem_map_of_mem _ henum, hplc⟩
  rw [reconciledPlacements, placementsAt]
  exact List.mem_filterMap.2 ⟨(i, w.word.getD j ' ', p), hall, by simp⟩

/-- Every contributor index recorded at a coordinate is a valid word index. -/
theorem reconciledPlacements_fst_lt {ws : List Word} {p : Coord} {i : Nat} {c : Char}
    (h : (i, c) ∈ reconciledPlacements ws p) : i < ws.length := by
  rw [reconciledPlacements, placementsAt] at h
  obtain ⟨t, ht, hif⟩ := List.mem_filterMap.1 h
  have hti : t.1 = i := by
    by_cases hc : t.2.2 = p
    · rw [if_pos hc] at hif
      have := Option.some.inj hif
      exact congrArg Prod.fst this
    · rw [if_neg hc] at hif
      cases hif
  rw [allPlacements] at ht
  obtain ⟨l, hl, htl⟩ := List.mem_flatten.1 ht
  obtain ⟨iw, hiw, hleq⟩ := List.mem_map.1 hl
  rw [← hleq, wordPlacements] at htl
  obtain ⟨jj, -, hjj⟩ := List.mem_map.1 htl
  have hk : t.1 = iw.1 := by rw [← hjj]
  obtain ⟨a, b⟩ := iw
  have hlen : a < ws.length := by
    have := List.mk_mem_enum_iff_getElem?.1 hiw
    exact (List.getElem?_eq_some_iff.1 this).1
  rw [← hti, hk]
  exact hlen

/-! ### Authoring-mode word validity (`CreateCrosswordMenu`, App.tsx 1483–1508) -/

/-- The first validity pass: a word is invalid when its description is
empty, its text is empty, or its text contains a blank. -/
def wordValidityBase (ws : List Word) : List Bool :=
  ws.map (fun w =>
    !(w.description.length == 0) && !(w.word.length == 0) && !(w.word.contains ' '))

/-- The second validity pass: every word contributing to a conflicted
coordinate is marked invalid
(`for (const { letter, lettersBy } of letters.values()) ...`). -/
def markConflicts (letters : LetterMap) (validity : List Bool) : List Bool :=
  letters.foldl
    (fun v kv =>
      if kv.2.letter = '?' then kv.2.lettersBy.foldl (fun v2 i => v2.set i false) v else v)
    validity

/-- The `wordValidity` array computed by `CreateCrosswordMenu`. -/
def wordValidity (ws : List Word) (letters : LetterMap) : List Bool :=
  markConflicts letters (wordValidityBase ws)

theorem length_foldl_set_false (l : List Nat) (v : List Bool) :
    (l.foldl (fun v2 i => v2.set i false) v).length = v.length := by
  induction l generalizing v with
  | nil => rfl
  | cons j l ih => simp [List.foldl_cons, ih]

theorem length_markConflicts (letters : LetterMap) (v : List Bool) :
    (markConflicts letters v).length = v.length := by
  rw [markConflicts]
  induction letters generalizing v with
  | nil => rfl
  | cons kv rest ih =>
    rw [List.foldl_cons]
    by_cases h : kv.2.letter = '?'
    · rw [if_pos h, ih, length_foldl_set_false]
    · rw [if_neg h, ih]

theorem set_false_keeps_false {v : List Bool} {i : Nat} (h : v[i]? = some false)
    (j : Nat) : (v.set j false)[i]? = some false := by
  by_cases hij : j = i
  · subst hij
    have hlt : j < v.length := (List.getElem?_eq_some_iff.1 h).1
    exact List.getElem?_set_eq_of_lt _ hlt
  · rw [List.getElem?_set_ne hij]
    exact h

theorem foldl_set_false_keeps_false {v : List Bool} {i : Nat}
    (h : v[i]? = some false) (l : List Nat) :
    (l.foldl (fun v2 j => v2.set j false) v)[i]? = some false := by
  induction l generalizing v with
  | nil => exact h
  | cons j l ih => exact ih (set_false_keeps_false h j)

theorem foldl_set_false_sets {v : List Bool} {i : Nat} (hlt : i < v.length)
    {l : List Nat} (hmem : i ∈ l) :
    (l.foldl (fun v2 j => v2.set j false) v)[i]? = some false := by
  induction l generalizing v with
  | nil => simp at hmem
  | cons j l ih =>
    rw [List.foldl_cons]
    by_cases hij : j = i
    · subst hij
      exact foldl_set_false_keeps_false (List.getElem?_set_eq_of_lt _ hlt) l
    · rcases List.mem_cons.1 hmem with h | h
      · exact absurd h.symm hij
      · exact ih (by simpa using hlt) h

theorem markConflicts_keeps_false {v : List Bool} {i : Nat}
    (h : v[i]? = some false) (letters : LetterMap) :
    (markConflicts letters v)[i]? = some false := by
  rw [markConflicts]
  induction letters generalizing v with
  | nil => exact h
  | cons kv rest ih =>
    rw [List.foldl_cons]
    by_cases hq : kv.2.letter = '?'
    · rw [if_pos hq]
      exact ih (foldl_set_false_keeps_false h _)
    · rw [if_neg hq]
      exact ih h

/-- Any word contributing to a conflicted map entry ends up invalid. -/
theorem markConflicts_invalid {letters : LetterMap} {p : Coord} {e : LetterEntry}
    (hmem : (p, e) ∈ letters) (hq : e.letter = '?') {i : Nat} (hby : i ∈ e.lettersBy)
    {v : List Bool} (hlt : i < v.length) :
    (markConflicts letters v)[i]? = some false := by
  rw [markConflicts]
  induction letters generalizing v with
  | nil => simp at hmem
  | cons kv rest ih =>
    rw [List.foldl_cons]
    rcases List.mem_cons.1 hmem with h | h
    · subst h
      rw [if_pos hq]
      have : (markConflicts rest (e.lettersBy.foldl (fun v2 j => v2.set j false) v))[i]? =
          some false :=
        markConflicts_keeps_false (foldl_set_false_sets hlt hby) rest
      rw [markConflicts] at this
      exact this
    · by_cases hkq : kv.2.letter = '?'
      · rw [if_pos hkq]
        exact ih h (by rw [length_foldl_set_false]; exact hlt)
      · rw [if_neg hkq]
        exact ih h hlt

/-- C1: if two words place differing non-blank letters at the same lattice
coordinate, the reconciled letter there is the conflict marker `'?'`, both
words appear in that coordinate's contributor list, and the authoring-mode
validity computation marks every word in that contributor list — in
particular both words — as invalid. -/
theorem conflicting_words_both_invalid (currentWordIndex : Option Nat) (ws : List Word)
    (i1 i2 j1 j2 : Nat) (p : Coord)
    (hi1 : i1 < ws.length) (hi2 : i2 < ws.length)
    (hj1 : j1 < (ws.getD i1 dfltWord).word.length)
    (hj2 : j2 < (ws.getD i2 dfltWord).word.length)
    (hp1 : wordLetterPosition (ws.getD i1 dfltWord).start
        (ws.getD i1 dfltWord).direction (j1 : Int) = p)
    (hp2 : wordLetterPosition (ws.getD i2 dfltWord).start
        (ws.getD i2 dfltWord).direction (j2 : Int) = p)
    (hc1 : (ws.getD i1 dfltWord).word.getD j1 ' ' ≠ ' ')
    (hc2 : (ws.getD i2 dfltWord).word.getD j2 ' ' ≠ ' ')
    (hne : (ws.getD i1 dfltWord).word.getD j1 ' ' ≠ (ws.getD i2 dfltWord).word.getD j2 ' ') :
    ∃ e, mapGet (createLetters currentWordIndex ws) p = some e ∧ e.letter = '?' ∧
      i1 ∈ e.lettersBy ∧ i2 ∈ e.lettersBy ∧
      ∀ i ∈ e.lettersBy,
        (wordValidity ws (createLetters currentWordIndex ws))[i]? = some false := by
  have hm1 := mem_reconciledPlacements hi1 hj1 hp1
  have hm2 := mem_reconciledPlacements hi2 hj2 hp2
  have hcm1 : (ws.getD i1 dfltWord).word.getD j1 ' ' ∈
      (reconciledPlacements ws p).map Prod.snd := List.mem_map_of_mem _ hm1
  have hcm2 : (ws.getD i2 dfltWord).word.getD j2 ' ' ∈
      (reconciledPlacements ws p).map Prod.snd := List.mem_map_of_mem _ hm2
  have hres : resolveChars ((reconciledPlacements ws p).map Prod.snd) = some '?' :=
    resolveFrom_conflict_of_two hc1 hc2 hne _ none hcm1 hcm2
  have hlet : letterAt currentWordIndex ws p = some '?' := by
    rw [letterAt_eq, hres]
  rw [letterAt] at hlet
  obtain ⟨e, hget, hletter⟩ := Option.map_eq_some'.1 hlet
  have hby := lettersByAt_eq currentWordIndex ws p hget
  refine ⟨e, hget, hletter, ?_, ?_, ?_⟩
  · rw [hby]
    exact List.mem_map_of_mem _ hm1
  · rw [hby]
    exact List.mem_map_of_mem _ hm2
  · intro i hiBy
    have hiplc : ∃ c, (i, c) ∈ reconciledPlacements ws p := by
      rw [hby] at hiBy
      obtain ⟨⟨i', c⟩, hmem, heq⟩ := List.mem_map.1 hiBy
      exact ⟨c, by rwa [show i' = i from heq] at hmem⟩
    obtain ⟨c, hcmem⟩ := hiplc
    have hilt : i < ws.length := reconciledPlacements_fst_lt hcmem
    rw [wordValidity]
    exact markConflicts_invalid (mem_of_mapGet_eq_some hget) hletter hiBy
      (by rw [wordValidityBase, List.length_map]; exact hilt)

/-- Witness for `conflicting_words_both_invalid`: the words "A" and "B" both
start at the origin along X, so they disagree at the origin and the validity
array marks both of them invalid. -/
theorem conflicting_words_both_invalid_witness :
    (0 : Nat) < 2 ∧
    (∃ e, mapGet (createLetters none
        [⟨['A'], .X, ⟨0, 0, 0⟩, ['d']⟩, ⟨['B'], .X, ⟨0, 0, 0⟩, ['e']⟩]) ⟨0, 0, 0⟩ = some e ∧
      e.letter = '?' ∧ 0 ∈ e.lettersBy ∧ 1 ∈ e.lettersBy ∧
      ∀ i ∈ e.lettersBy,
        (wordValidity [⟨['A'], .X, ⟨0, 0, 0⟩, ['d']⟩, ⟨['B'], .X, ⟨0, 0, 0⟩, ['e']⟩]
          (createLetters none
            [⟨['A'], .X, ⟨0, 0, 0⟩, ['d']⟩, ⟨['B'], .X, ⟨0, 0, 0⟩, ['e']⟩]))[i]? =
          some false) :=
  ⟨by decide,
    conflicting_words_both_invalid none
      [⟨['A'], .X, ⟨0, 0, 0⟩, ['d']⟩, ⟨['B'], .X, ⟨0, 0, 0⟩, ['e']⟩]
      0 1 0 0 ⟨0, 0, 0⟩ (by decide) (by decide) (by decide) (by decide)
      (by decide) (by decide) (by decide) (by decide) (by decide)⟩

/-! ### Order independence of the resolved letters (claim C3) -/

theorem resolveStep_absorb (c : Char) : resolveStep (some '?') c = some '?' := by
  rw [resolveStep]
  split_ifs with h1 h2
  · exact absurd h1 (by decide)
  · rfl
  · rfl

theorem resolveStep_blank_state (c : Char) : resolveStep (some ' ') c = some c := by
  simp [resolveStep]

theorem resolveStep_swap (a b : Char) :
    resolveStep (some a) b = resolveStep (some b) a := by
  by_cases ha : a = ' '
  · subst ha
    rw [resolveStep_blank_state]
    by_cases hb : b = ' '
    · subst hb; rfl
    · rw [resolveStep, if_neg hb, if_pos (.inl rfl)]
  · by_cases hb : b = ' '
    · subst hb
      rw [resolveStep_blank_state, resolveStep, if_neg ha, if_pos (.inl rfl)]
    · by_cases hab : a = b
      · subst hab; rfl
      · rw [resolveStep, if_neg ha, if_neg (by push_neg; exact ⟨hb, hab⟩)]
        rw [resolveStep, if_neg hb, if_neg (by push_neg; exact ⟨ha, fun h => hab h.symm⟩)]

theorem resolveStep_right_comm (s : Option Char) (a b : Char) :
    resolveStep (resolveStep s a) b = resolveStep (resolveStep s b) a := by
  cases s with
  | none => exact resolveStep_swap a b
  | some l =>
    by_cases hl : l = ' '
    · subst hl
      rw [resolveStep_blank_state, resolveStep_blank_state]
      exact resolveStep_swap a b
    · rcases resolveStep_stable hl a with ha | ha <;>
        rcases resolveStep_stable hl b with hb | hb
      · rw [ha, hb, ha]
      · rw [ha, hb, resolveStep_absorb]
      · rw [ha, hb, ha, resolveStep_absorb]
      · rw [ha, hb, resolveStep_absorb, resolveStep_absorb]

instance : RightCommutative resolveStep := ⟨resolveStep_right_comm⟩

/-- The characters word `w` places at coordinate `p`, in letter order. -/
def wordCharsAt (w : Word) (p : Coord) : List Char :=
  (List.range w.word.length).filterMap
    (fun i : Nat =>
      if wordLetterPosition w.start w.direction (i : Int) = p then some (w.word.getD i ' ')
      else none)

theorem placementsAt_wordPlacements_snd (k : Nat) (w : Word) (p : Coord) :
    (placementsAt (wordPlacements k w) p).map Prod.snd = wordCharsAt w p := by
  rw [placementsAt, wordPlacements, List.filterMap_map, List.map_filterMap, wordCharsAt]
  congr 1
  funext i
  by_cases h : wordLetterPosition w.start w.direction (i : Int) = p
  · simp [h]
  · simp [h]

theorem placementsAt_flatten (L : List (List (Nat × Char × Coord))) (p : Coord) :
    placementsAt L.flatten p = (L.map (placementsAt · p)).flatten := by
  induction L with
  | nil => rfl
  | cons l L ih =>
    rw [List.flatten_cons, placementsAt_append, List.map_cons, List.flatten_cons, ih]

/-- The characters placed at a coordinate are the concatenation, word by
word, of each word's characters there — the word indices play no role. -/
theorem reconciledPlacements_snd (ws : List Word) (p : Coord) :
    (reconciledPlacements ws p).map Prod.snd = (ws.map (wordCharsAt · p)).flatten := by
  have main : ∀ (ws : List Word) (k : Nat),
      (placementsAt (((ws.enumFrom k).map (fun iw => wordPlacements iw.1 iw.2)).flatten) p).map
          Prod.snd =
        (ws.map (wordCharsAt · p)).flatten := by
    intro ws
    induction ws with
    | nil => intro k; rfl
    | cons w ws ih =>
      intro k
      rw [List.enumFrom_cons, List.map_cons, List.flatten_cons, placementsAt_append,
        List.map_append, List.map_cons, List.flatten_cons,
        placementsAt_wordPlacements_snd k w p, ih (k + 1)]
  rw [reconciledPlacements, allPlacements]
  exact main ws 0

theorem perm_flatten {α : Type} {l₁ l₂ : List (List α)} (h : l₁.Perm l₂) :
    l₁.flatten.Perm l₂.flatten := by
  induction h with
  | nil => rfl
  | cons x h ih =>
    rw [List.flatten_cons, List.flatten_cons]
    exact ih.append_left x
  | swap x y l =>
    rw [List.flatten_cons, List.flatten_cons, List.flatten_cons, List.flatten_cons,
      ← List.append_assoc, ← List.append_assoc]
    exact (List.perm_append_comm).append_right l.flatten
  | trans _ _ ih₁ ih₂ => exact ih₁.trans ih₂

/-- C3: the reconciler's coordinate-to-letter outcome is deterministic (a
pure function of the word list in this embedding, so reconciling the same
list twice gives the same mapping definitionally) and order-independent:
permuting the word list — and even changing which word is selected — leaves
the resolved letter (including the conflict marker) at every coordinate
unchanged.  Only contributor order and emphasis may differ. -/
theorem letterAt_perm (ws ws' : List Word) (hperm : ws.Perm ws')
    (currentWordIndex currentWordIndex' : Option Nat) (p : Coord) :
    letterAt currentWordIndex ws p = letterAt currentWordIndex' ws' p := by
  rw [letterAt_eq, letterAt_eq, reconciledPlacements_snd, reconciledPlacements_snd]
  exact List.Perm.foldl_eq (perm_flatten (hperm.map (wordCharsAt · p))) none

/-- Witness for `letterAt_perm`: swapping "HELLO"/X and "OX"/Y leaves the
resolved letter at their crossing unchanged. -/
theorem letterAt_perm_witness :
    ([⟨['H', 'E', 'L', 'L', 'O'], .X, ⟨0, 0, 0⟩, ['g']⟩, ⟨['O', 'X'], .Y, ⟨4, 0, 0⟩, ['h']⟩] :
        List Word).Perm
      [⟨['O', 'X'], .Y, ⟨4, 0, 0⟩, ['h']⟩, ⟨['H', 'E', 'L', 'L', 'O'], .X, ⟨0, 0, 0⟩, ['g']⟩] ∧
    letterAt none
        [⟨['H', 'E', 'L', 'L', 'O'], .X, ⟨0, 0, 0⟩, ['g']⟩,
          ⟨['O', 'X'], .Y, ⟨4, 0, 0⟩, ['h']⟩] ⟨4, 0, 0⟩ =
      letterAt (some 0)
        [⟨['O', 'X'], .Y, ⟨4, 0, 0⟩, ['h']⟩,
          ⟨['H', 'E', 'L', 'L', 'O'], .X, ⟨0, 0, 0⟩, ['g']⟩] ⟨4, 0, 0⟩ :=
  ⟨List.Perm.swap _ _ _,
    letterAt_perm _ _ (List.Perm.swap _ _ _) none (some 0) ⟨4, 0, 0⟩⟩

/-! ### Blank transparency (claim C4) -/

/-- Within one word, distinct letter indices land on distinct coordinates. -/
theorem wordLetterPosition_inj {s : Coord} {d : Direction} {i i' : Int}
    (h : wordLetterPosition s d i = wordLetterPosition s d i') : i = i' := by
  cases d <;>
    · rw [wordLetterPosition, wordLetterPosition, Coord.mk.injEq] at h
      omega

/-- If letter `j` of `w` sits at `p`, it is the only letter of `w` there. -/
theorem wordCharsAt_singleton {w : Word} {j : Nat} {p : Coord}
    (hj : j < w.word.length)
    (hp : wordLetterPosition w.start w.direction (j : Int) = p) :
    wordCharsAt w p = [w.word.getD j ' '] := by
  have hnot : ∀ i : Nat, i ≠ j →
      (if wordLetterPosition w.start w.direction (i : Int) = p
        then some (w.word.getD i ' ') else none) = none := by
    intro i hij
    rw [if_neg]
    intro h
    exact hij (by exact_mod_cast wordLetterPosition_inj (h.trans hp.symm))
  have hsplit : List.range w.word.length =
      List.range' 0 j ++ List.range' j (w.word.length - j) := by
    rw [List.range_eq_range']
    have := List.range'_append 0 j (w.word.length - j) 1
    simp only [Nat.one_mul, Nat.zero_add] at this
    rw [this]
    congr 1
    omega
  rw [wordCharsAt, hsplit, List.filterMap_append]
  have h1 : (List.range' 0 j).filterMap
      (fun i : Nat =>
        if wordLetterPosition w.start w.direction (i : Int) = p
        then some (w.word.getD i ' ') else none) = [] := by
    apply List.filterMap_eq_nil_iff.mpr
    intro i hi
    have := List.mem_range'_1.mp hi
    exact hnot i (by omega)
  have h2 : List.range' j (w.word.length - j) = j :: List.range' (j + 1) (w.word.length - j - 1) := by
    have hlen : w.word.length - j = (w.word.length - j - 1) + 1 := by omega
    conv_lhs => rw [hlen]
    rw [List.range'_succ]
  have h3 : (List.range' (j + 1) (w.word.length - j - 1)).filterMap
      (fun i : Nat =>
        if wordLetterPosition w.start w.direction (i : Int) = p
        then some (w.word.getD i ' ') else none) = [] := by
    apply List.filterMap_eq_nil_iff.mpr
    intro i hi
    have := List.mem_range'_1.mp hi
    exact hnot i (by omega)
  rw [h1, h2, List.filterMap_cons, if_pos hp, h3]
  rfl

theorem resolveStep_isSome (s : Option Char) (c : Char) : ∃ d, resolveStep s c = some d := by
  cases s with
  | none => exact ⟨c, rfl⟩
  | some l =>
    rw [resolveStep]
    split_ifs with h1 h2
    · exact ⟨c, rfl⟩
    · exact ⟨l, rfl⟩
    · exact ⟨'?', rfl⟩

theorem resolveStep_blank_char (l : Char) : resolveStep (some l) ' ' = some l := by
  rw [resolveStep]
  split_ifs with h1 h2
  · rw [h1]
  · rfl
  · exact absurd (Or.inl rfl) h2

theorem resolveFrom_all_blank {cs : List Char} (h : ∀ c ∈ cs, c = ' ') (l : Char) :
    resolveFrom (some l) cs = some l := by
  induction cs with
  | nil => rfl
  | cons c cs ih =>
    rw [resolveFrom, List.foldl_cons, h c (List.mem_cons_self c cs),
      resolveStep_blank_char]
    exact ih (fun c' hc' => h c' (List.mem_cons_of_mem _ hc'))

theorem resolveFrom_blank_start {cs : List Char} (h : cs ≠ []) :
    resolveFrom (some ' ') cs = resolveFrom none cs := by
  cases cs with
  | nil => exact absurd rfl h
  | cons c cs =>
    rw [resolveFrom, resolveFrom, List.foldl_cons, List.foldl_cons,
      resolveStep_blank_state]
    rfl

/-- Dropping all blank placements at a coordinate does not change the
resolved letter, as long as some non-blank placement remains. -/
theorem resolveFrom_filter_blanks : ∀ (cs : List Char) (s : Option Char),
    cs.filter (fun c => !(c == ' ')) ≠ [] →
    resolveFrom s cs = resolveFrom s (cs.filter (fun c => !(c == ' '))) := by
  intro cs
  induction cs with
  | nil => intro s h; rfl
  | cons c cs ih =>
    intro s h
    by_cases hc : c = ' '
    · subst hc
      rw [List.filter_cons] at h ⊢
      simp only [beq_self_eq_true, Bool.not_true, Bool.false_eq_true, if_false] at h ⊢
      have hcs : cs ≠ [] := by
        rintro rfl
        simp at h
      rw [resolveFrom, List.foldl_cons]
      cases s with
      | none =>
        rw [resolveStep]
        have h1 : resolveFrom (some ' ') cs = resolveFrom none cs :=
          resolveFrom_blank_start hcs
        rw [resolveFrom] at h1
        rw [h1]
        exact ih none h
      | some l =>
        rw [resolveStep_blank_char]
        exact ih (some l) h
    · rw [List.filter_cons]
      have hcb : (!(c == ' ')) = true := by simp [hc]
      rw [if_pos hcb]
      rw [resolveFrom, resolveFrom, List.foldl_cons, List.foldl_cons]
      by_cases hf : cs.filter (fun c => !(c == ' ')) = []
      · have hall : ∀ c' ∈ cs, c' = ' ' := by
          intro c' hc'
          by_contra hne
          have : c' ∈ cs.filter (fun c => !(c == ' ')) :=
            List.mem_filter.2 ⟨hc', by simp [hne]⟩
          rw [hf] at this
          simp at this
        obtain ⟨d, hd⟩ := resolveStep_isSome s c
        rw [hf, hd]
        exact resolveFrom_all_blank hall d
      · exact ih (resolveStep s c) hf

theorem letterAt_append_word {currentWordIndex : Option Nat} {ws : List Word} {w : Word}
    {j : Nat} {p : Coord} (hj : j < w.word.length)
    (hp : wordLetterPosition w.start w.direction (j : Int) = p) :
    letterAt currentWordIndex (ws ++ [w]) p =
      resolveStep (letterAt currentWordIndex ws p) (w.word.getD j ' ') := by
  rw [letterAt_eq, letterAt_eq, reconciledPlacements_snd, reconciledPlacements_snd,
    List.map_append, List.flatten_append, List.map_singleton, List.flatten_cons,
    List.flatten_nil, List.append_nil, wordCharsAt_singleton hj hp]
  rw [resolveChars, resolveChars, List.foldl_append, List.foldl_cons, List.foldl_nil]

/-- C4: blank transparency.  A word whose letter at the shared coordinate
`p` is a blank never overrides a concrete letter already resolved at `p`
and never introduces the conflict marker at `p`; a concrete letter
arriving at a coordinate currently holding a blank replaces the blank
without conflict; and in general, dropping every blank placed at a
coordinate — by any word, at any point of the processing order — leaves
the resolved letter unchanged whenever a concrete letter is placed there. -/
theorem blank_transparency (currentWordIndex : Option Nat) (ws : List Word) (w : Word)
    (j : Nat) (p : Coord) (hj : j < w.word.length)
    (hp : wordLetterPosition w.start w.direction (j : Int) = p) :
    (w.word.getD j ' ' = ' ' →
      (∀ L : Char, L ≠ ' ' → letterAt currentWordIndex ws p = some L →
        letterAt currentWordIndex (ws ++ [w]) p = some L) ∧
      (letterAt currentWordIndex ws p ≠ some '?' →
        letterAt currentWordIndex (ws ++ [w]) p ≠ some '?')) ∧
    (w.word.getD j ' ' ≠ ' ' → letterAt currentWordIndex ws p = some ' ' →
      letterAt currentWordIndex (ws ++ [w]) p = some (w.word.getD j ' ')) ∧
    (∀ (ws' : List Word) (q : Coord),
      (ws'.map (wordCharsAt · q)).flatten.filter (fun c => !(c == ' ')) ≠ [] →
      letterAt currentWordIndex ws' q =
        resolveChars ((ws'.map (wordCharsAt · q)).flatten.filter (fun c => !(c == ' ')))) := by
  have happ := @letterAt_append_word currentWordIndex ws w j p hj hp
  refine ⟨?_, ?_, ?_⟩
  · intro hblank
    constructor
    · intro L hL hprev
      rw [happ, hblank, hprev, resolveStep, if_neg hL, if_pos (.inl rfl)]
    · intro hprev
      rw [happ, hblank]
      cases hcase : letterAt currentWordIndex ws p with
      | none =>
        rw [resolveStep]
        exact fun h => (by decide : (' ' : Char) ≠ '?') (Option.some.inj h)
      | some x =>
        rw [hcase] at hprev
        by_cases hx : x = ' '
        · subst hx
          rw [resolveStep_blank_state]
          exact fun h => (by decide : (' ' : Char) ≠ '?') (Option.some.inj h)
        · rw [resolveStep, if_neg hx, if_pos (.inl rfl)]
          exact hprev
  · intro hc hprev
    rw [happ, hprev, resolveStep_blank_state]
  · intro ws' q hfilter
    rw [letterAt_eq, reconciledPlacements_snd, resolveChars_eq_resolveFrom,
      resolveChars_eq_resolveFrom]
    exact resolveFrom_filter_blanks _ none hfilter

/-- Witness for `blank_transparency`: the word "A B" crosses "XYZ" with its
blank over the letter Y, which survives, and crosses a blank of "Q Q" with
its concrete letter A. -/
theorem blank_transparency_witness :
    ((1 : Nat) < 3 ∧
      wordLetterPosition ⟨0, 0, 0⟩ .X (1 : Int) = ⟨1, 0, 0⟩) ∧
    ((⟨['A', ' ', 'B'], .X, ⟨0, 0, 0⟩, ['d']⟩ : Word).word.getD 1 ' ' = ' ' →
      (∀ L : Char, L ≠ ' ' →
        letterAt none [⟨['X', 'Y', 'Z'], .X, ⟨0, 0, 0⟩, ['e']⟩] ⟨1, 0, 0⟩ = some L →
        letterAt none
          ([⟨['X', 'Y', 'Z'], .X, ⟨0, 0, 0⟩, ['e']⟩] ++
            [⟨['A', ' ', 'B'], .X, ⟨0, 0, 0⟩, ['d']⟩]) ⟨1, 0, 0⟩ = some L) ∧
      (letterAt none [⟨['X', 'Y', 'Z'], .X, ⟨0, 0, 0⟩, ['e']⟩] ⟨1, 0, 0⟩ ≠ some '?' →
        letterAt none
          ([⟨['X', 'Y', 'Z'], .X, ⟨0, 0, 0⟩, ['e']⟩] ++
            [⟨['A', ' ', 'B'], .X, ⟨0, 0, 0⟩, ['d']⟩]) ⟨1, 0, 0⟩ ≠ some '?')) ∧
    ((⟨['A', ' ', 'B'], .X, ⟨0, 0, 0⟩, ['d']⟩ : Word).word.getD 1 ' ' ≠ ' ' →
      letterAt none [⟨['X', 'Y', 'Z'], .X, ⟨0, 0, 0⟩, ['e']⟩] ⟨1, 0, 0⟩ = some ' ' →
      letterAt none
        ([⟨['X', 'Y', 'Z'], .X, ⟨0, 0, 0⟩, ['e']⟩] ++
          [⟨['A', ' ', 'B'], .X, ⟨0, 0, 0⟩, ['d']⟩]) ⟨1, 0, 0⟩ =
        some ((⟨['A', ' ', 'B'], .X, ⟨0, 0, 0⟩, ['d']⟩ : Word).word.getD 1 ' ')) ∧
    (∀ (ws' : List Word) (q : Coord),
      (ws'.map (wordCharsAt · q)).flatten.filter (fun c => !(c == ' ')) ≠ [] →
      letterAt none ws' q =
        resolveChars ((ws'.map (wordCharsAt · q)).flatten.filter (fun c => !(c == ' ')))) :=
  ⟨⟨by decide, by decide⟩,
    (blank_transparency none [⟨['X', 'Y', 'Z'], .X, ⟨0, 0, 0⟩, ['e']⟩]
      ⟨['A', ' ', 'B'], .X, ⟨0, 0, 0⟩, ['d']⟩ 1 ⟨1, 0, 0⟩ (by decide) (by decide)).1,
    (blank_transparency none [⟨['X', 'Y', 'Z'], .X, ⟨0, 0, 0⟩, ['e']⟩]
      ⟨['A', ' ', 'B'], .X, ⟨0, 0, 0⟩, ['d']⟩ 1 ⟨1, 0, 0⟩ (by decide) (by decide)).2.1,
    (blank_transparency none [⟨['X', 'Y', 'Z'], .X, ⟨0, 0, 0⟩, ['e']⟩]
      ⟨['A', ' ', 'B'], .X, ⟨0, 0, 0⟩, ['d']⟩ 1 ⟨1, 0, 0⟩ (by decide) (by decide)).2.2⟩

/-! ### The solving-mode `solved` computation (App.tsx 2802–2808 and 2906–2912) -/

/-- The `solved` flag: `crossword.words[i].word != words[i]` for any `i`
breaks the loop with `solved = false`.  A missing guess (JS `undefined`)
compares unequal to every answer string, which `guesses[i]? == some …`
reproduces exactly. -/
def solved (cw : Crossword) (guesses : List (List Char)) : Bool :=
  (List.range cw.words.length).all
    (fun i => guesses[i]? == some (cw.words.getD i dfltWord).word)

/-- C7: `solved` is true exactly when, for every word index, the guess text
equals the answer word text character for character (including length).
The reconciled lattice does not occur in the computation at all — `solved`
is a function of the answers and guesses only — and for a puzzle with zero
words it is vacuously true. -/
theorem solved_iff (cw : Crossword) (guesses : List (List Char)) :
    (solved cw guesses = true ↔
      ∀ i < cw.words.length, guesses[i]? = some (cw.words.getD i dfltWord).word) ∧
    (cw.words = [] → solved cw guesses = true) := by
  constructor
  · rw [solved, List.all_eq_true]
    constructor
    · intro h i hi
      have := h i (List.mem_range.2 hi)
      exact beq_iff_eq.1 this
    · intro h i hi
      exact beq_iff_eq.2 (h i (List.mem_range.1 hi))
  · intro h
    rw [solved, h]
    rfl

/-! ### Geometry (claim C8) -/

/-- Modelled from the spec: the unit step of each axis,
X → (+1,0,0), Y → (0,−1,0), Z → (0,0,+1). -/
def specAxisStep : Direction → Coord
  | .X => ⟨1, 0, 0⟩
  | .Y => ⟨0, -1, 0⟩
  | .Z => ⟨0, 0, 1⟩

/-- C8: `wordLetterPosition start axis index` is `start + index • step axis`
for every integer index (negative included), with the Y axis decreasing;
and a word's start is recovered from its center block by stepping back
`floor(len / 2)` places. -/
theorem wordLetterPosition_affine :
    (∀ (start : Coord) (d : Direction) (index : Int),
      wordLetterPosition start d index =
        ⟨start.x + index * (specAxisStep d).x, start.y + index * (specAxisStep d).y,
          start.z + index * (specAxisStep d).z⟩) ∧
    (∀ (start : Coord) (d : Direction) (len : Nat),
      wordLetterPosition (wordLetterPosition start d ((len / 2 : Nat) : Int)) d
        (-((len / 2 : Nat) : Int)) = start) := by
  constructor
  · intro start d index
    cases d <;>
      · rw [wordLetterPosition, specAxisStep, Coord.mk.injEq]
        refine ⟨by ring, by ring, by ring⟩
  · intro start d len
    cases d <;>
      · rw [wordLetterPosition, wordLetterPosition, Coord.mk.injEq]
        cases start
        refine ⟨by ring, by ring, by ring⟩

/-! ### The second-generation loader (`OpenCrossword`, App.tsx 1332–1367)

The claim concerns the validation that runs after the payload has parsed
and matched the `zod` shape, so the model starts from a `Crossword` value.
The source's uppercase check is
`word[i].charCodeAt(i) < "A".charCodeAt(0) || word[i].charCodeAt(i) > "Z".charCodeAt(0)`:
its receiver is the one-character string `word[i]`, so the inner index `i`
is in range only when `i = 0`; out of range `charCodeAt` yields `NaN`, and
both comparisons against `NaN` are false. -/

/-- Whether the source's uppercase test fires for letter `i` of `w`. -/
def upperCaseCheckFails (w : List Char) (i : Nat) : Bool :=
  if i = 0 then decide ((w.getD i ' ').toNat < 65 ∨ 90 < (w.getD i ' ').toNat) else false

/-- The load-time validation loop.  `none` models an early `return` after
`setFileError("Invalid crossword")`; `some letters` continues with the
accumulated answer-key map.  The file is handed to `onOpen` exactly when
the result `isSome`. -/
def openCrosswordCheck (cw : Crossword) : Bool :=
  (cw.words.foldl
    (fun acc w =>
      acc.bind (fun letters =>
        (List.range w.word.length).foldl
          (fun acc2 i =>
            acc2.bind (fun ls =>
              if upperCaseCheckFails w.word i then none
              else
                let position := wordLetterPosition w.start w.direction (i : Int)
                match mapGet ls position with
                | none => some (mapSet ls position (w.word.getD i ' '))
                | some entry => if entry = w.word.getD i ' ' then some ls else none))
          (some letters)))
    (some [])).isSome

/-- C5 (code bug): a crossword whose word "A!" carries the character `'!'`
(outside A–Z) at index 1 passes the loader's validation, so the open
callback is invoked instead of the "Invalid crossword" rejection the claim
requires; the same character at index 0 ("!A") is rejected, isolating the
slip to the out-of-range `charCodeAt(i)`. -/
theorem openCrosswordCheck_accepts_bad_char :
    (('!' : Char).toNat < 65 ∨ 90 < ('!' : Char).toNat) ∧
    openCrosswordCheck ⟨['P'], [⟨['A', '!'], .X, ⟨0, 0, 0⟩, ['d']⟩]⟩ = true ∧
    openCrosswordCheck ⟨['P'], [⟨['!', 'A'], .X, ⟨0, 0, 0⟩, ['d']⟩]⟩ = false :=
  ⟨by decide, by decide, by decide⟩

/-! ### The solving-mode two-pass reconciliation (`ViewCrossword`, App.tsx 2703–2770) -/

/-- The answer pass for one word (inner loop of App.tsx 2704–2723): every
letter block of the answer word receives a blank entry whose opacity is
refreshed and whose contributor list is reset. -/
def innerAnswer (currentWordIndex : Option Nat) (m : LetterMap) (k : Nat) (w : Word) :
    LetterMap :=
  (List.range w.word.length).foldl
    (fun m2 (i : Nat) =>
      mapSet m2 (wordLetterPosition w.start w.direction (i : Int))
        ⟨' ', wordLetterPosition w.start w.direction (i : Int),
          match mapGet m2 (wordLetterPosition w.start w.direction (i : Int)) with
          | none => wordOpacity currentWordIndex k
          | some entry => max (wordOpacity currentWordIndex k) entry.opacity, []⟩)
    m

/-- The full answer pass: `crossword.words.forEach((word, wordIndex) => …)`. -/
def viewAnswerPass (currentWordIndex : Option Nat) (cws : List Word) : LetterMap :=
  cws.enum.foldl (fun m iw => innerAnswer currentWordIndex m iw.1 iw.2) []

/-- One step of the guess pass (App.tsx 2727–2769).  The source reads
`letters.get(positionKey)` and immediately dereferences `entry.letter`
without a missing-entry check; a missing entry is a JS `TypeError`,
modelled as `none`. -/
def viewGuessStep (currentWordIndex : Option Nat) (wordIndex : Nat) (w : Word)
    (g : List Char) (m : LetterMap) (i : Nat) : Option LetterMap :=
  match mapGet m (wordLetterPosition w.start w.direction (i : Int)) with
  | none => none
  | some entry =>
    if entry.letter = ' ' then
      some (mapSet m (wordLetterPosition w.start w.direction (i : Int))
        ⟨g.getD i ' ', wordLetterPosition w.start w.direction (i : Int),
          max (wordOpacity currentWordIndex wordIndex) entry.opacity,
          entry.lettersBy ++ [wordIndex]⟩)
    else if g.getD i ' ' = ' ' ∨ entry.letter = g.getD i ' ' then
      some (mapSet m (wordLetterPosition w.start w.direction (i : Int))
        ⟨entry.letter, wordLetterPosition w.start w.direction (i : Int),
          max (wordOpacity currentWordIndex wordIndex) entry.opacity,
          entry.lettersBy ++ [wordIndex]⟩)
    else
      some (mapSet m (wordLetterPosition w.start w.direction (i : Int))
        ⟨'?', wordLetterPosition w.start w.direction (i : Int),
          max (wordOpacity currentWordIndex wordIndex) entry.opacity,
          entry.lettersBy ++ [wordIndex]⟩)

/-- The full guess pass: `words.forEach((word, wordIndex) => …)` where the
geometry is read from `crossword.words[wordIndex]` (a throwing access when
the guess list is longer than the answer list, modelled as `none`). -/
def viewGuessWord (currentWordIndex : Option Nat) (cws : List Word)
    (ig : Nat × List Char) (m : LetterMap) : Option LetterMap :=
  match cws[ig.1]? with
  | none => none
  | some w =>
    (List.range ig.2.length).foldl
      (fun acc2 i => acc2.bind (fun m2 => viewGuessStep currentWordIndex ig.1 w ig.2 m2 i))
      (some m)

def viewGuessPass (currentWordIndex : Option Nat) (cws : List Word)
    (guesses : List (List Char)) (m0 : LetterMap) : Option LetterMap :=
  guesses.enum.foldl (fun acc ig => acc.bind (viewGuessWord currentWordIndex cws ig)) (some m0)

/-! #### Domain lemmas for claim C10 -/

/-- `m` has an entry at every answer letter block of `cws`. -/
def answerDom (cws : List Word) (m : LetterMap) : Prop :=
  ∀ k i : Nat, k < cws.length → i < (cws.getD k dfltWord).word.length →
    (mapGet m (wordLetterPosition (cws.getD k dfltWord).start
      (cws.getD k dfltWord).direction (i : Int))).isSome

theorem isSome_mapGet_mapSet {α : Type} {m : List (Coord × α)} {p : Coord}
    (h : (mapGet m p).isSome) (q : Coord) (v : α) :
    (mapGet (mapSet m q v) p).isSome := by
  by_cases hqp : q = p
  · subst hqp
    rw [mapGet_mapSet_self]
    rfl
  · rw [mapGet_mapSet_ne _ _ hqp]
    exact h

/-- Folding `mapSet` steps preserves and establishes map membership. -/
theorem foldl_mapSet_dom {β : Type} (key : β → Coord) (val : LetterMap → β → LetterEntry) :
    ∀ (ts : List β) (m : LetterMap) (p : Coord),
      ((mapGet m p).isSome ∨ ∃ t ∈ ts, key t = p) →
      (mapGet (ts.foldl (fun m2 t => mapSet m2 (key t) (val m2 t)) m) p).isSome := by
  intro ts
  induction ts with
  | nil =>
    intro m p h
    rcases h with h | ⟨t, ht, -⟩
    · exact h
    · simp at ht
  | cons t ts ih =>
    intro m p h
    rw [List.foldl_cons]
    rcases h with h | ⟨u, hu, hup⟩
    · exact ih _ _ (.inl (isSome_mapGet_mapSet h _ _))
    · rcases List.mem_cons.1 hu with rfl | hu
      · refine ih _ _ (.inl ?_)
        rw [hup, mapGet_mapSet_self]
        rfl
      · exact ih _ _ (.inr ⟨u, hu, hup⟩)

theorem innerAnswer_dom (currentWordIndex : Option Nat) (m : LetterMap) (k : Nat) (w : Word)
    (p : Coord)
    (h : (mapGet m p).isSome ∨
      ∃ i < w.word.length, wordLetterPosition w.start w.direction (i : Int) = p) :
    (mapGet (innerAnswer currentWordIndex m k w) p).isSome := by
  rw [innerAnswer]
  exact foldl_mapSet_dom (fun i : Nat => wordLetterPosition w.start w.direction (i : Int))
    (fun m2 i =>
      ⟨' ', wordLetterPosition w.start w.direction (i : Int),
        match mapGet m2 (wordLetterPosition w.start w.direction (i : Int)) with
        | none => wordOpacity currentWordIndex k
        | some entry => max (wordOpacity currentWordIndex k) entry.opacity, []⟩)
    (List.range w.word.length) m p
    (by
      rcases h with h | ⟨i, hi, hp⟩
      · exact .inl h
      · exact .inr ⟨i, List.mem_range.2 hi, hp⟩)

theorem viewAnswerPass_from (currentWordIndex : Option Nat) :
    ∀ (l : List Word) (k0 : Nat) (m : LetterMap) (p : Coord),
      ((mapGet m p).isSome ∨
        ∃ j < l.length, ∃ i < (l.getD j dfltWord).word.length,
          wordLetterPosition (l.getD j dfltWord).start (l.getD j dfltWord).direction
            (i : Int) = p) →
      (mapGet ((l.enumFrom k0).foldl
        (fun m2 iw => innerAnswer currentWordIndex m2 iw.1 iw.2) m) p).isSome := by
  intro l
  induction l with
  | nil =>
    intro k0 m p h
    rcases h with h | ⟨j, hj, -⟩
    · exact h
    · simp at hj
  | cons w l ih =>
    intro k0 m p h
    rw [List.enumFrom_cons, List.foldl_cons]
    rcases h with h | ⟨j, hj, i, hi, hp⟩
    · exact ih _ _ _ (.inl (innerAnswer_dom _ _ _ _ _ (.inl h)))
    · cases j with
      | zero =>
        refine ih _ _ _ (.inl (innerAnswer_dom _ _ _ _ _ (.inr ⟨i, ?_, ?_⟩)))
        · simpa using hi
        · simpa using hp
      | succ j =>
        refine ih _ _ _ (.inr ⟨j, by simpa using hj, i, ?_, ?_⟩)
        · simpa using hi
        · simpa using hp

/-- The answer pass populates every answer letter block. -/
theorem viewAnswerPass_dom (currentWordIndex : Option Nat) (cws : List Word) :
    answerDom cws (viewAnswerPass currentWordIndex cws) := by
  intro k i hk hi
  rw [viewAnswerPass]
  exact viewAnswerPass_from currentWordIndex cws 0 [] _ (.inr ⟨k, hk, i, hi, rfl⟩)

theorem answerDom_mapSet {cws : List Word} {m : LetterMap} (h : answerDom cws m)
    (q : Coord) (v : LetterEntry) : answerDom cws (mapSet m q v) := by
  intro k i hk hi
  exact isSome_mapGet_mapSet (h k i hk hi) q v

theorem viewGuessStep_total {cws : List Word} {m : LetterMap} (hD : answerDom cws m)
    (currentWordIndex : Option Nat) {k : Nat} (hk : k < cws.length) {g : List Char}
    {i : Nat} (hi : i < (cws.getD k dfltWord).word.length) :
    ∃ m', viewGuessStep currentWordIndex k (cws.getD k dfltWord) g m i = some m' ∧
      answerDom cws m' := by
  have hsome := hD k i hk hi
  obtain ⟨entry, hentry⟩ := Option.isSome_iff_exists.1 hsome
  simp only [viewGuessStep, hentry]
  by_cases h1 : entry.letter = ' '
  · rw [if_pos h1]
    exact ⟨_, rfl, answerDom_mapSet hD _ _⟩
  · rw [if_neg h1]
    by_cases h2 : g.getD i ' ' = ' ' ∨ entry.letter = g.getD i ' '
    · rw [if_pos h2]
      exact ⟨_, rfl, answerDom_mapSet hD _ _⟩
    · rw [if_neg h2]
      exact ⟨_, rfl, answerDom_mapSet hD _ _⟩

theorem viewGuessPass_inner_total {cws : List Word} (currentWordIndex : Option Nat)
    {k : Nat} (hk : k < cws.length) (g : List Char)
    (_hg : g.length ≤ (cws.getD k dfltWord).word.length) :
    ∀ (idxs : List Nat), (∀ i ∈ idxs, i < (cws.getD k dfltWord).word.length) →
      ∀ m : LetterMap, answerDom cws m →
      ∃ m', (idxs.foldl
          (fun acc2 i =>
            acc2.bind
              (fun m2 => viewGuessStep currentWordIndex k (cws.getD k dfltWord) g m2 i))
          (some m)) = some m' ∧ answerDom cws m' := by
  intro idxs
  induction idxs with
  | nil => exact fun _ m hD => ⟨m, rfl, hD⟩
  | cons i idxs ih =>
    intro hbound m hD
    rw [List.foldl_cons]
    obtain ⟨m1, hm1, hD1⟩ :=
      @viewGuessStep_total cws m hD currentWordIndex k hk g i
        (hbound i (List.mem_cons_self i idxs))
    rw [Option.some_bind, hm1]
    exact ih (fun i' hi' => hbound i' (List.mem_cons_of_mem _ hi')) m1 hD1

theorem viewGuessWord_eq (currentWordIndex : Option Nat) (cws : List Word) (k : Nat)
    (g : List Char) {w : Word} (m : LetterMap) (h : cws[k]? = some w) :
    viewGuessWord currentWordIndex cws (k, g) m =
      (List.range g.length).foldl
        (fun acc2 i => acc2.bind (fun m2 => viewGuessStep currentWordIndex k w g m2 i))
        (some m) := by
  simp only [viewGuessWord, h]

theorem viewGuessPass_from {cws : List Word} (currentWordIndex : Option Nat) :
    ∀ (gl : List (List Char)) (k0 : Nat) (m : LetterMap), answerDom cws m →
      (∀ j < gl.length, k0 + j < cws.length ∧
        (gl.getD j []).length ≤ (cws.getD (k0 + j) dfltWord).word.length) →
      ∃ m', ((gl.enumFrom k0).foldl
        (fun acc ig => acc.bind (viewGuessWord currentWordIndex cws ig)) (some m)) =
          some m' ∧ answerDom cws m' := by
  intro gl
  induction gl with
  | nil => exact fun k0 m hD _ => ⟨m, rfl, hD⟩
  | cons g gl ih =>
    intro k0 m hD hbound
    rw [List.enumFrom_cons, List.foldl_cons, Option.some_bind]
    obtain ⟨hk0, hg0⟩ := hbound 0 (by simp)
    rw [Nat.add_zero] at hk0
    have hgetelem : cws[k0]? = some (cws.getD k0 dfltWord) := by
      rw [List.getElem?_eq_getElem hk0]
      rw [List.getD_eq_getElem?_getD, List.getElem?_eq_getElem hk0]
      rfl
    have hglen : g.length ≤ (cws.getD k0 dfltWord).word.length := by
      simpa using hg0
    obtain ⟨m1, hm1, hD1⟩ :=
      viewGuessPass_inner_total currentWordIndex hk0 g hglen (List.range g.length)
        (fun i hi => Nat.lt_of_lt_of_le (List.mem_range.1 hi) hglen) m hD
    rw [viewGuessWord_eq currentWordIndex cws k0 g m hgetelem, hm1]
    refine ih (k0 + 1) m1 hD1 ?_
    intro j hj
    obtain ⟨h1, h2⟩ := hbound (j + 1) (by simpa using hj)
    constructor
    · omega
    · have harith : k0 + 1 + j = k0 + (j + 1) := by omega
      rw [harith]
      simpa using h2

/-- C10: when the guess list is no longer than the answer list and each
guess is no longer than its answer word, every coordinate the guess pass
visits already has an entry from the answer pass, so the unguarded
`entry.letter` dereference never hits a missing entry and the two-pass
reconciliation is total. -/
theorem viewGuessPass_total (currentWordIndex : Option Nat) (cws : List Word)
    (guesses : List (List Char)) (hlen : guesses.length ≤ cws.length)
    (hw : ∀ j < guesses.length,
      (guesses.getD j []).length ≤ (cws.getD j dfltWord).word.length) :
    (viewGuessPass currentWordIndex cws guesses
      (viewAnswerPass currentWordIndex cws)).isSome := by
  rw [viewGuessPass]
  obtain ⟨m', hm', -⟩ :=
    @viewGuessPass_from cws currentWordIndex guesses 0
      (viewAnswerPass currentWordIndex cws) (viewAnswerPass_dom currentWordIndex cws)
      (fun j hj => ⟨by omega, by simpa using hw j hj⟩)
  rw [List.enum, hm']
  rfl

/-- Witness for `viewGuessPass_total`: a one-word puzzle "AB" with the
partial guess "A". -/
theorem viewGuessPass_total_witness :
    ([['A']] : List (List Char)).length ≤ ([⟨['A', 'B'], .X, ⟨0, 0, 0⟩, ['d']⟩] : List Word).length ∧
    (viewGuessPass none [⟨['A', 'B'], .X, ⟨0, 0, 0⟩, ['d']⟩] [['A']]
      (viewAnswerPass none [⟨['A', 'B'], .X, ⟨0, 0, 0⟩, ['d']⟩])).isSome :=
  ⟨by decide,
    viewGuessPass_total none [⟨['A', 'B'], .X, ⟨0, 0, 0⟩, ['d']⟩] [['A']] (by decide)
      (by
        intro j hj
        simp only [List.length_cons, List.length_nil] at hj
        have hj0 : j = 0 := by omega
        subst hj0
        decide)⟩

/-! ### The editor reducer (`createCrosswordReducer`, App.tsx 1874–2494)

`currentWordIndex as number` casts are modelled by `Option.getD · 0`, and
array reads by `List.getD`; the source performs them only in situations the
UI guarantees are in range, and the theorems below are stated for exactly
those well-formed action sequences. -/

/-- The delta stored in a history entry (`WordsChange`, App.tsx 1826–1854). -/
inductive WordsChange where
  | NewWord
  | DeleteWord (index : Nat) (word : Word)
  | ChangeStart (start previousStart : Coord)
  | ChangeDirection (direction previousDirection : Direction)
  | ChangeWord (word previousWord : List Char)
  | ChangeDescription (description previousDescription : List Char)
deriving DecidableEq, Repr

/-- The nested `crossword` field of a history entry. -/
structure HistoryCrossword where
  name : List Char
  wordsChange : Option WordsChange
deriving DecidableEq, Repr

/-- One history entry (`History`, App.tsx 1856–1864). -/
structure HistoryEntry where
  crossword : HistoryCrossword
  currentWordIndex : Option Nat
  orbitCenter : Coord
deriving DecidableEq, Repr

/-- The reducer state (`CreateCrosswordState`, App.tsx 1866–1872). -/
structure CreateCrosswordState where
  crossword : Crossword
  currentWordIndex : Option Nat
  orbitCenter : Coord
  history : List HistoryEntry
  historyIndex : Nat
deriving DecidableEq, Repr

/-- The reducer actions (`CreateCrosswordAction`, App.tsx 1768–1824). -/
inductive CreateCrosswordAction where
  | SetCrossword (crossword : Crossword)
  | SetName (name : List Char)
  | NewWord
  | SelectWord (index : Nat)
  | DeleteWord (index : Nat)
  | SetOrbitCenter (position : Coord)
  | ShowWordList
  | SetStart (position : Coord)
  | SetDirection (direction : Direction)
  | SetWord (word : List Char)
  | SetDescription (description : List Char)
  | Drag (center : Coord)
  | DragEnd (center : Coord)
  | Undo
  | Redo
deriving DecidableEq, Repr

def dfltEntry : HistoryEntry := ⟨⟨[], none⟩, none, ⟨0, 0, 0⟩⟩

/-- Does word `w` cover orbit coordinate `o`?  The source checks, for each
dimension, that `o` lies between the start block and
`wordLetterPosition(start, direction, word.length - 1)`; the length is an
integer, so an empty word yields the end block at index `-1`. -/
def coversOrbit (w : Word) (o : Coord) : Bool :=
  (decide ((w.start.x ≤ o.x ∧ o.x ≤ (wordLetterPosition w.start w.direction
      ((w.word.length : Int) - 1)).x) ∨
    (w.start.x ≥ o.x ∧ o.x ≥ (wordLetterPosition w.start w.direction
      ((w.word.length : Int) - 1)).x))) &&
  (decide ((w.start.y ≤ o.y ∧ o.y ≤ (wordLetterPosition w.start w.direction
      ((w.word.length : Int) - 1)).y) ∨
    (w.start.y ≥ o.y ∧ o.y ≥ (wordLetterPosition w.start w.direction
      ((w.word.length : Int) - 1)).y))) &&
  (decide ((w.start.z ≤ o.z ∧ o.z ≤ (wordLetterPosition w.start w.direction
      ((w.word.length : Int) - 1)).z) ∨
    (w.start.z ≥ o.z ∧ o.z ≥ (wordLetterPosition w.start w.direction
      ((w.word.length : Int) - 1)).z)))

/-- The inverse delta application of the `Undo` branch (App.tsx 2309–2390). -/
def undoWords (entry : HistoryEntry) (ws : List Word) : List Word :=
  match entry.crossword.wordsChange with
  | none => ws
  | some .NewWord => ws.dropLast
  | some (.DeleteWord idx w) => ws.take idx ++ w :: ws.drop idx
  | some (.ChangeStart _ prev) =>
      ws.set (entry.currentWordIndex.getD 0)
        { ws.getD (entry.currentWordIndex.getD 0) dfltWord with start := prev }
  | some (.ChangeDirection _ prev) =>
      ws.set (entry.currentWordIndex.getD 0)
        { ws.getD (entry.currentWordIndex.getD 0) dfltWord with direction := prev }
  | some (.ChangeWord _ prev) =>
      ws.set (entry.currentWordIndex.getD 0)
        { ws.getD (entry.currentWordIndex.getD 0) dfltWord with word := prev }
  | some (.ChangeDescription _ prev) =>
      ws.set (entry.currentWordIndex.getD 0)
        { ws.getD (entry.currentWordIndex.getD 0) dfltWord with description := prev }

/-- The forward delta application of the `Redo` branch (App.tsx 2414–2480). -/
def redoWords (entry : HistoryEntry) (ws : List Word) : List Word :=
  match entry.crossword.wordsChange with
  | none => ws
  | some .NewWord => ws ++ [⟨[], .X, entry.orbitCenter, []⟩]
  | some (.DeleteWord idx _) => ws.take idx ++ ws.drop (idx + 1)
  | some (.ChangeStart st _) =>
      ws.set (entry.currentWordIndex.getD 0)
        { ws.getD (entry.currentWordIndex.getD 0) dfltWord with start := st }
  | some (.ChangeDirection d _) =>
      ws.set (entry.currentWordIndex.getD 0)
        { ws.getD (entry.currentWordIndex.getD 0) dfltWord with direction := d }
  | some (.ChangeWord wtxt _) =>
      ws.set (entry.currentWordIndex.getD 0)
        { ws.getD (entry.currentWordIndex.getD 0) dfltWord with word := wtxt }
  | some (.ChangeDescription dtxt _) =>
      ws.set (entry.currentWordIndex.getD 0)
        { ws.getD (entry.currentWordIndex.getD 0) dfltWord with description := dtxt }

/-- The reducer itself. -/
def createCrosswordReducer (state : CreateCrosswordState) (action : CreateCrosswordAction) :
    CreateCrosswordState :=
  match action with
  | .SetCrossword crossword =>
      { crossword := crossword
        orbitCenter := ⟨0, 0, 0⟩
        currentWordIndex := none
        history := [⟨⟨crossword.name, none⟩, none, ⟨0, 0, 0⟩⟩]
        historyIndex := 0 }
  | .SetName name =>
      { state with
        crossword := ⟨name, state.crossword.words⟩
        history := state.history.take (state.historyIndex + 1) ++
          [⟨⟨name, none⟩, state.currentWordIndex, state.orbitCenter⟩]
        historyIndex := state.historyIndex + 1 }
  | .NewWord =>
      { state with
        currentWordIndex := some state.crossword.words.length
        crossword := ⟨state.crossword.name,
          state.crossword.words ++ [⟨[], .X, state.orbitCenter, []⟩]⟩
        history := state.history.take (state.historyIndex + 1) ++
          [⟨⟨state.crossword.name, some .NewWord⟩, some state.crossword.words.length,
            state.orbitCenter⟩]
        historyIndex := state.historyIndex + 1 }
  | .SelectWord index =>
      { state with
        currentWordIndex := some index
        orbitCenter := wordLetterPosition (state.crossword.words.getD index dfltWord).start
          (state.crossword.words.getD index dfltWord).direction
          (((state.crossword.words.getD index dfltWord).word.length / 2 : Nat) : Int)
        history := state.history.take (state.historyIndex + 1) ++
          [⟨⟨state.crossword.name, none⟩, some index,
            wordLetterPosition (state.crossword.words.getD index dfltWord).start
              (state.crossword.words.getD index dfltWord).direction
              (((state.crossword.words.getD index dfltWord).word.length / 2 : Nat) : Int)⟩]
        historyIndex := state.historyIndex + 1 }
  | .DeleteWord index =>
      { state with
        orbitCenter :=
          if (List.range state.crossword.words.length).any
              (fun i => i ≠ index &&
                coversOrbit (state.crossword.words.getD i dfltWord) state.orbitCenter) then
            state.orbitCenter
          else ⟨0, 0, 0⟩
        crossword := ⟨state.crossword.name,
          state.crossword.words.take index ++ state.crossword.words.drop (index + 1)⟩
        history := state.history.take (state.historyIndex + 1) ++
          [⟨⟨state.crossword.name,
              some (.DeleteWord index (state.crossword.words.getD index dfltWord))⟩,
            state.currentWordIndex,
            if (List.range state.crossword.words.length).any
                (fun i => i ≠ index &&
                  coversOrbit (state.crossword.words.getD i dfltWord) state.orbitCenter) then
              state.orbitCenter
            else ⟨0, 0, 0⟩⟩]
        historyIndex := state.historyIndex + 1 }
  | .SetOrbitCenter position => { state with orbitCenter := position }
  | .ShowWordList =>
      { state with
        currentWordIndex := none
        history := state.history.take (state.historyIndex + 1) ++
          [⟨⟨state.crossword.name, none⟩, none, state.orbitCenter⟩]
        historyIndex := state.historyIndex + 1 }
  | .SetStart position =>
      { state with
        orbitCenter := wordLetterPosition position
          (state.crossword.words.getD (state.currentWordIndex.getD 0) dfltWord).direction
          (((state.crossword.words.getD (state.currentWordIndex.getD 0)
            dfltWord).word.length / 2 : Nat) : Int)
        crossword := ⟨state.crossword.name,
          state.crossword.words.set (state.currentWordIndex.getD 0)
            { state.crossword.words.getD (state.currentWordIndex.getD 0) dfltWord with
              start := position }⟩
        history := state.history.take (state.historyIndex + 1) ++
          [⟨⟨state.crossword.name,
              some (.ChangeStart position
                (state.crossword.words.getD (state.currentWordIndex.getD 0) dfltWord).start)⟩,
            state.currentWordIndex,
            wordLetterPosition position
              (state.crossword.words.getD (state.currentWordIndex.getD 0) dfltWord).direction
              (((state.crossword.words.getD (state.currentWordIndex.getD 0)
                dfltWord).word.length / 2 : Nat) : Int)⟩]
        historyIndex := state.historyIndex + 1 }
  | .SetDirection direction =>
      { state with
        orbitCenter := wordLetterPosition
          (state.crossword.words.getD (state.currentWordIndex.getD 0) dfltWord).start direction
          (((state.crossword.words.getD (state.currentWordIndex.getD 0)
            dfltWord).word.length / 2 : Nat) : Int)
        crossword := ⟨state.crossword.name,
          state.crossword.words.set (state.currentWordIndex.getD 0)
            { state.crossword.words.getD (state.currentWordIndex.getD 0) dfltWord with
              direction := direction }⟩
        history := state.history.take (state.historyIndex + 1) ++
          [⟨⟨state.crossword.name,
              some (.ChangeDirection direction
                (state.crossword.words.getD (state.currentWordIndex.getD 0)
                  dfltWord).direction)⟩,
            state.currentWordIndex,
            wordLetterPosition
              (state.crossword.words.getD (state.currentWordIndex.getD 0) dfltWord).start
              direction
              (((state.crossword.words.getD (state.currentWordIndex.getD 0)
                dfltWord).word.length / 2 : Nat) : Int)⟩]
        historyIndex := state.historyIndex + 1 }
  | .SetWord word =>
      { state with
        orbitCenter := wordLetterPosition
          (state.crossword.words.getD (state.currentWordIndex.getD 0) dfltWord).start
          (state.crossword.words.getD (state.currentWordIndex.getD 0) dfltWord).direction
          ((word.length / 2 : Nat) : Int)
        crossword := ⟨state.crossword.name,
          state.crossword.words.set (state.currentWordIndex.getD 0)
            { state.crossword.words.getD (state.currentWordIndex.getD 0) dfltWord with
              word := word }⟩
        history := state.history.take (state.historyIndex + 1) ++
          [⟨⟨state.crossword.name,
              some (.ChangeWord word
                (state.crossword.words.getD (state.currentWordIndex.getD 0) dfltWord).word)⟩,
            state.currentWordIndex,
            wordLetterPosition
              (state.crossword.words.getD (state.currentWordIndex.getD 0) dfltWord).start
              (state.crossword.words.getD (state.currentWordIndex.getD 0) dfltWord).direction
              ((word.length / 2 : Nat) : Int)⟩]
        historyIndex := state.historyIndex + 1 }
  | .SetDescription description =>
      { state with
        crossword := ⟨state.crossword.name,
          state.crossword.words.set (state.currentWordIndex.getD 0)
            { state.crossword.words.getD (state.currentWordIndex.getD 0) dfltWord with
              description := description }⟩
        history := state.history.take (state.historyIndex + 1) ++
          [⟨⟨state.crossword.name,
              some (.ChangeDescription description
                (state.crossword.words.getD (state.currentWordIndex.getD 0)
                  dfltWord).description)⟩,
            state.currentWordIndex, state.orbitCenter⟩]
        historyIndex := state.historyIndex + 1 }
  | .Drag center =>
      { state with
        crossword := ⟨state.crossword.name,
          state.crossword.words.set (state.currentWordIndex.getD 0)
            { state.crossword.words.getD (state.currentWordIndex.getD 0) dfltWord with
              start := wordLetterPosition center
                (state.crossword.words.getD (state.currentWordIndex.getD 0) dfltWord).direction
                (-(((state.crossword.words.getD (state.currentWordIndex.getD 0)
                  dfltWord).word.length / 2 : Nat) : Int)) }⟩ }
  | .DragEnd center =>
      { state with
        orbitCenter := center
        crossword := ⟨state.crossword.name,
          state.crossword.words.set (state.currentWordIndex.getD 0)
            { state.crossword.words.getD (state.currentWordIndex.getD 0) dfltWord with
              start := wordLetterPosition center
                (state.crossword.words.getD (state.currentWordIndex.getD 0) dfltWord).direction
                (-(((state.crossword.words.getD (state.currentWordIndex.getD 0)
                  dfltWord).word.length / 2 : Nat) : Int)) }⟩
        history := state.history.take (state.historyIndex + 1) ++
          [⟨⟨state.crossword.name,
              some (.ChangeStart
                (wordLetterPosition center
                  (state.crossword.words.getD (state.currentWordIndex.getD 0)
                    dfltWord).direction
                  (-(((state.crossword.words.getD (state.currentWordIndex.getD 0)
                    dfltWord).word.length / 2 : Nat) : Int)))
                (wordLetterPosition state.orbitCenter
                  (state.crossword.words.getD (state.currentWordIndex.getD 0)
                    dfltWord).direction
                  (-(((state.crossword.words.getD (state.currentWordIndex.getD 0)
                    dfltWord).word.length / 2 : Nat) : Int))))⟩,
            state.currentWordIndex, center⟩]
        historyIndex := state.historyIndex + 1 }
  | .Undo =>
      if state.historyIndex = 0 then state
      else
        { history := state.history
          historyIndex := state.historyIndex - 1
          currentWordIndex :=
            (state.history.getD (state.historyIndex - 1) dfltEntry).currentWordIndex
          orbitCenter := (state.history.getD (state.historyIndex - 1) dfltEntry).orbitCenter
          crossword := ⟨(state.history.getD (state.historyIndex - 1) dfltEntry).crossword.name,
            undoWords (state.history.getD state.historyIndex dfltEntry)
              state.crossword.words⟩ }
  | .Redo =>
      if state.historyIndex = state.history.length - 1 then state
      else
        { history := state.history
          historyIndex := state.historyIndex + 1
          currentWordIndex :=
            (state.history.getD (state.historyIndex + 1) dfltEntry).currentWordIndex
          orbitCenter := (state.history.getD (state.historyIndex + 1) dfltEntry).orbitCenter
          crossword := ⟨(state.history.getD (state.historyIndex + 1) dfltEntry).crossword.name,
            redoWords (state.history.getD (state.historyIndex + 1) dfltEntry)
              state.crossword.words⟩ }

/-- The initial reducer state passed to `useReducer` (App.tsx 2497–2515). -/
def initialCreateState : CreateCrosswordState :=
  ⟨⟨[], []⟩, none, ⟨0, 0, 0⟩, [⟨⟨[], none⟩, none, ⟨0, 0, 0⟩⟩], 0⟩

/-- The structural edit actions of the spec: new word, delete word, change
start / direction / word text / description / name, finalize a drag. -/
def structuralKind : CreateCrosswordAction → Prop
  | .SetName _ => True
  | .NewWord => True
  | .DeleteWord _ => True
  | .SetStart _ => True
  | .SetDirection _ => True
  | .SetWord _ => True
  | .SetDescription _ => True
  | .DragEnd _ => True
  | _ => False

/-- A structural edit the UI can actually dispatch from state `s`: deletion
happens on a listed word, and the per-word edits (and drag release) only
while a valid word is selected. -/
def structuralWf (s : CreateCrosswordState) : CreateCrosswordAction → Prop
  | .SetName _ => True
  | .NewWord => True
  | .DeleteWord index => index < s.crossword.words.length
  | .SetStart _ => ∃ i, s.currentWordIndex = some i ∧ i < s.crossword.words.length
  | .SetDirection _ => ∃ i, s.currentWordIndex = some i ∧ i < s.crossword.words.length
  | .SetWord _ => ∃ i, s.currentWordIndex = some i ∧ i < s.crossword.words.length
  | .SetDescription _ => ∃ i, s.currentWordIndex = some i ∧ i < s.crossword.words.length
  | .DragEnd _ => ∃ i, s.currentWordIndex = some i ∧ i < s.crossword.words.length
  | _ => False

/-- The history entry the cursor points at. -/
def topEntry (s : CreateCrosswordState) : HistoryEntry :=
  s.history.getD s.historyIndex dfltEntry

/-- The delta of entry `e` matches word list `ws`: undoing it with
`undoWords` and replaying it with `redoWords` restores `ws`. -/
def changeOK (e : HistoryEntry) (ws : List Word) : Prop :=
  match e.crossword.wordsChange with
  | none => True
  | some .NewWord => ws ≠ [] ∧ ws.getLast? = some ⟨[], .X, e.orbitCenter, []⟩
  | some (.DeleteWord idx _) => idx ≤ ws.length
  | some (.ChangeStart st _) =>
      ∃ i, e.currentWordIndex = some i ∧ i < ws.length ∧ (ws.getD i dfltWord).start = st
  | some (.ChangeDirection d _) =>
      ∃ i, e.currentWordIndex = some i ∧ i < ws.length ∧ (ws.getD i dfltWord).direction = d
  | some (.ChangeWord wtxt _) =>
      ∃ i, e.currentWordIndex = some i ∧ i < ws.length ∧ (ws.getD i dfltWord).word = wtxt
  | some (.ChangeDescription dtxt _) =>
      ∃ i, e.currentWordIndex = some i ∧ i < ws.length ∧
        (ws.getD i dfltWord).description = dtxt

/-- The top entry's delta matches the current word list. -/
def topChangeOK (s : CreateCrosswordState) : Prop :=
  changeOK (topEntry s) s.crossword.words

/-- Invariant of every state reachable by structural edits: the cursor sits
on the last entry, that entry records the current name / selection / focus,
and its delta matches the current word list. -/
structure GoodState (s : CreateCrosswordState) : Prop where
  histNe : s.history ≠ []
  idxEq : s.historyIndex = s.history.length - 1
  topName : (topEntry s).crossword.name = s.crossword.name
  topCwi : (topEntry s).currentWordIndex = s.currentWordIndex
  topOrbit : (topEntry s).orbitCenter = s.orbitCenter
  topChange : topChangeOK s

/-! #### List helpers for the history proofs -/

theorem getD_append_length {α : Type} (l : List α) (e d : α) :
    (l ++ [e]).getD l.length d = e := by
  induction l with
  | nil => rfl
  | cons a l ih => simp [ih]

theorem set_getD_self {α : Type} : ∀ (l : List α) (i : Nat) (d : α),
    l.set i (l.getD i d) = l := by
  intro l
  induction l with
  | nil => intro i d; rfl
  | cons a l ih =>
    intro i d
    cases i with
    | zero => rfl
    | succ n => simpa using ih n d

theorem getD_set_self {α : Type} : ∀ (l : List α) {i : Nat} (a d : α), i < l.length →
    (l.set i a).getD i d = a := by
  intro l
  induction l with
  | nil => intro i a d h; simp at h
  | cons b l ih =>
    intro i a d h
    cases i with
    | zero => rfl
    | succ n =>
      simp only [List.set_cons_succ, List.getD_cons_succ]
      exact ih a d (by simpa using h)

theorem take_cons_drop_erase {α : Type} : ∀ (idx : Nat) (ws : List α) (w : α),
    idx ≤ ws.length →
    (ws.take idx ++ w :: ws.drop idx).take idx ++
      (ws.take idx ++ w :: ws.drop idx).drop (idx + 1) = ws := by
  intro idx
  induction idx with
  | zero => intro ws w _; simp
  | succ n ih =>
    intro ws w h
    cases ws with
    | nil => simp at h
    | cons a tl =>
      simp only [List.take_succ_cons, List.drop_succ_cons, List.cons_append]
      exact congrArg (a :: ·) (ih tl w (by simpa using h))

theorem dropLast_append_getLast?_eq {α : Type} {l : List α} {w : α}
    (h : l.getLast? = some w) : l.dropLast ++ [w] = l := by
  have hne : l ≠ [] := by rintro rfl; simp at h
  have hlast : l.getLast hne = w := by
    rwa [List.getLast?_eq_getLast l hne, Option.some.injEq] at h
  rw [← hlast]
  exact List.dropLast_concat_getLast hne

/-! #### Preservation of the invariant -/

theorem take_historyIndex_succ {s : CreateCrosswordState} (h : GoodState s) :
    s.history.take (s.historyIndex + 1) = s.history := by
  have h1 : 0 < s.history.length := List.length_pos.mpr h.histNe
  have h2 := h.idxEq
  have h3 : s.historyIndex + 1 = s.history.length := by omega
  rw [h3, List.take_length]

theorem goodState_structural {s : CreateCrosswordState} (h : GoodState s)
    {sn : CreateCrosswordState} {e : HistoryEntry}
    (hh : sn.history = s.history.take (s.historyIndex + 1) ++ [e])
    (hidx : sn.historyIndex = s.historyIndex + 1)
    (hname : e.crossword.name = sn.crossword.name)
    (hcwi : e.currentWordIndex = sn.currentWordIndex)
    (horbit : e.orbitCenter = sn.orbitCenter)
    (hch : changeOK e sn.crossword.words) : GoodState sn := by
  have htake := take_historyIndex_succ h
  have hh' : sn.history = s.history ++ [e] := by rw [hh, htake]
  have h1 : 0 < s.history.length := List.length_pos.mpr h.histNe
  have h2 := h.idxEq
  have h3 : s.historyIndex + 1 = s.history.length := by omega
  have htop : topEntry sn = e := by
    rw [topEntry, hh', hidx, h3, getD_append_length]
  exact
    { histNe := by rw [hh']; simp
      idxEq := by rw [hh', hidx, List.length_append]; simpa using h3
      topName := by rw [htop, hname]
      topCwi := by rw [htop, hcwi]
      topOrbit := by rw [htop, horbit]
      topChange := by rw [topChangeOK, htop]; exact hch }

theorem goodState_init : GoodState initialCreateState :=
  { histNe := by simp [initialCreateState]
    idxEq := rfl
    topName := rfl
    topCwi := rfl
    topOrbit := rfl
    topChange := trivial }

theorem goodState_step {s : CreateCrosswordState} {a : CreateCrosswordAction}
    (h : GoodState s) (hwf : structuralWf s a) :
    GoodState (createCrosswordReducer s a) := by
  cases a with
  | SetName name => exact goodState_structural h rfl rfl rfl rfl rfl trivial
  | NewWord =>
      refine goodState_structural h rfl rfl rfl rfl rfl ⟨by simp [createCrosswordReducer], ?_⟩
      exact List.getLast?_concat _
  | DeleteWord index =>
      refine goodState_structural h rfl rfl rfl rfl rfl ?_
      have hlt : index < s.crossword.words.length := hwf
      show index ≤ (s.crossword.words.take index ++ s.crossword.words.drop (index + 1)).length
      rw [List.length_append, List.length_take, List.length_drop]
      omega
  | SetStart position =>
      obtain ⟨i, hcwi, hlen⟩ := (hwf : ∃ i, s.currentWordIndex = some i ∧
        i < s.crossword.words.length)
      refine goodState_structural h rfl rfl rfl rfl rfl ⟨i, hcwi, ?_, ?_⟩
      · simpa [createCrosswordReducer, List.length_set] using hlen
      · show ((s.crossword.words.set (s.currentWordIndex.getD 0) _).getD i dfltWord).start =
          position
        rw [hcwi]
        simp only [Option.getD_some]
        rw [getD_set_self _ _ _ hlen]
  | SetDirection direction =>
      obtain ⟨i, hcwi, hlen⟩ := (hwf : ∃ i, s.currentWordIndex = some i ∧
        i < s.crossword.words.length)
      refine goodState_structural h rfl rfl rfl rfl rfl ⟨i, hcwi, ?_, ?_⟩
      · simpa [createCrosswordReducer, List.length_set] using hlen
      · show ((s.crossword.words.set (s.currentWordIndex.getD 0) _).getD i
          dfltWord).direction = direction
        rw [hcwi]
        simp only [Option.getD_some]
        rw [getD_set_self _ _ _ hlen]
  | SetWord word =>
      obtain ⟨i, hcwi, hlen⟩ := (hwf : ∃ i, s.currentWordIndex = some i ∧
        i < s.crossword.words.length)
      refine goodState_structural h rfl rfl rfl rfl rfl ⟨i, hcwi, ?_, ?_⟩
      · simpa [createCrosswordReducer, List.length_set] using hlen
      · show ((s.crossword.words.set (s.currentWordIndex.getD 0) _).getD i dfltWord).word =
          word
        rw [hcwi]
        simp only [Option.getD_some]
        rw [getD_set_self _ _ _ hlen]
  | SetDescription description =>
      obtain ⟨i, hcwi, hlen⟩ := (hwf : ∃ i, s.currentWordIndex = some i ∧
        i < s.crossword.words.length)
      refine goodState_structural h rfl rfl rfl rfl rfl ⟨i, hcwi, ?_, ?_⟩
      · simpa [createCrosswordReducer, List.length_set] using hlen
      · show ((s.crossword.words.set (s.currentWordIndex.getD 0) _).getD i
          dfltWord).description = description
        rw [hcwi]
        simp only [Option.getD_some]
        rw [getD_set_self _ _ _ hlen]
  | DragEnd center =>
      obtain ⟨i, hcwi, hlen⟩ := (hwf : ∃ i, s.currentWordIndex = some i ∧
        i < s.crossword.words.length)
      refine goodState_structural h rfl rfl rfl rfl rfl ⟨i, hcwi, ?_, ?_⟩
      · simpa [createCrosswordReducer, List.length_set] using hlen
      · show ((s.crossword.words.set (s.currentWordIndex.getD 0) _).getD i dfltWord).start = _
        rw [hcwi]
        simp only [Option.getD_some]
        rw [getD_set_self _ _ _ hlen]
  | SetCrossword crossword => exact absurd hwf (by simp [structuralWf])
  | SelectWord index => exact absurd hwf (by simp [structuralWf])
  | SetOrbitCenter position => exact absurd hwf (by simp [structuralWf])
  | ShowWordList => exact absurd hwf (by simp [structuralWf])
  | Drag center => exact absurd hwf (by simp [structuralWf])
  | Undo => exact absurd hwf (by simp [structuralWf])
  | Redo => exact absurd hwf (by simp [structuralWf])

/-! #### Undo and Redo -/

theorem reducer_undo_zero {s : CreateCrosswordState} (h0 : s.historyIndex = 0) :
    createCrosswordReducer s .Undo = s := by
  simp [createCrosswordReducer, h0]

theorem reducer_undo_pos {s : CreateCrosswordState} (h0 : s.historyIndex ≠ 0) :
    createCrosswordReducer s .Undo =
      { history := s.history
        historyIndex := s.historyIndex - 1
        currentWordIndex :=
          (s.history.getD (s.historyIndex - 1) dfltEntry).currentWordIndex
        orbitCenter := (s.history.getD (s.historyIndex - 1) dfltEntry).orbitCenter
        crossword := ⟨(s.history.getD (s.historyIndex - 1) dfltEntry).crossword.name,
          undoWords (s.history.getD s.historyIndex dfltEntry) s.crossword.words⟩ } := by
  simp [createCrosswordReducer, h0]

theorem reducer_redo_last {s : CreateCrosswordState}
    (h0 : s.historyIndex = s.history.length - 1) :
    createCrosswordReducer s .Redo = s := by
  simp [createCrosswordReducer, h0]

theorem reducer_redo_notlast {s : CreateCrosswordState}
    (h0 : s.historyIndex ≠ s.history.length - 1) :
    createCrosswordReducer s .Redo =
      { history := s.history
        historyIndex := s.historyIndex + 1
        currentWordIndex :=
          (s.history.getD (s.historyIndex + 1) dfltEntry).currentWordIndex
        orbitCenter := (s.history.getD (s.historyIndex + 1) dfltEntry).orbitCenter
        crossword := ⟨(s.history.getD (s.historyIndex + 1) dfltEntry).crossword.name,
          redoWords (s.history.getD (s.historyIndex + 1) dfltEntry) s.crossword.words⟩ } := by
  simp [createCrosswordReducer, h0]

/-- Replaying the delta after applying its inverse restores the word list. -/
theorem redo_undo_words {e : HistoryEntry} {ws : List Word} (h : changeOK e ws) :
    redoWords e (undoWords e ws) = ws := by
  rcases hch : e.crossword.wordsChange with - | ch
  · simp [undoWords, redoWords, hch]
  · cases ch with
    | NewWord =>
        have h' : ws ≠ [] ∧ ws.getLast? = some ⟨[], .X, e.orbitCenter, []⟩ := by
          rw [changeOK, hch] at h
          exact h
        simp only [undoWords, redoWords, hch]
        exact dropLast_append_getLast?_eq h'.2
    | DeleteWord idx w =>
        have h' : idx ≤ ws.length := by
          rw [changeOK, hch] at h
          exact h
        simp only [undoWords, redoWords, hch]
        exact take_cons_drop_erase idx ws w h'
    | ChangeStart st prev =>
        have h' : ∃ i, e.currentWordIndex = some i ∧ i < ws.length ∧
            (ws.getD i dfltWord).start = st := by
          rw [changeOK, hch] at h
          exact h
        obtain ⟨i, hcwi, hlen, hfield⟩ := h'
        simp only [undoWords, redoWords, hch, hcwi, Option.getD_some]
        rw [getD_set_self _ _ _ hlen, List.set_set]
        rw [← hfield]
        exact set_getD_self ws i dfltWord
    | ChangeDirection d prev =>
        have h' : ∃ i, e.currentWordIndex = some i ∧ i < ws.length ∧
            (ws.getD i dfltWord).direction = d := by
          rw [changeOK, hch] at h
          exact h
        obtain ⟨i, hcwi, hlen, hfield⟩ := h'
        simp only [undoWords, redoWords, hch, hcwi, Option.getD_some]
        rw [getD_set_self _ _ _ hlen, List.set_set]
        rw [← hfield]
        exact set_getD_self ws i dfltWord
    | ChangeWord wtxt prev =>
        have h' : ∃ i, e.currentWordIndex = some i ∧ i < ws.length ∧
            (ws.getD i dfltWord).word = wtxt := by
          rw [changeOK, hch] at h
          exact h
        obtain ⟨i, hcwi, hlen, hfield⟩ := h'
        simp only [undoWords, redoWords, hch, hcwi, Option.getD_some]
        rw [getD_set_self _ _ _ hlen, List.set_set]
        rw [← hfield]
        exact set_getD_self ws i dfltWord
    | ChangeDescription dtxt prev =>
        have h' : ∃ i, e.currentWordIndex = some i ∧ i < ws.length ∧
            (ws.getD i dfltWord).description = dtxt := by
          rw [changeOK, hch] at h
          exact h
        obtain ⟨i, hcwi, hlen, hfield⟩ := h'
        simp only [undoWords, redoWords, hch, hcwi, Option.getD_some]
        rw [getD_set_self _ _ _ hlen, List.set_set]
        rw [← hfield]
        exact set_getD_self ws i dfltWord

theorem state_ext {s t : CreateCrosswordState} (h1 : s.crossword = t.crossword)
    (h2 : s.currentWordIndex = t.currentWordIndex) (h3 : s.orbitCenter = t.orbitCenter)
    (h4 : s.history = t.history) (h5 : s.historyIndex = t.historyIndex) : s = t := by
  cases s
  cases t
  simp_all

/-- One Undo followed by one Redo restores an invariant-satisfying state. -/
theorem undo_redo_of_goodState {s : CreateCrosswordState} (h : GoodState s) :
    createCrosswordReducer (createCrosswordReducer s .Undo) .Redo = s := by
  by_cases h0 : s.historyIndex = 0
  · rw [reducer_undo_zero h0]
    exact reducer_redo_last h.idxEq
  · rw [reducer_undo_pos h0]
    have h1 : 0 < s.history.length := List.length_pos.mpr h.histNe
    have h2 := h.idxEq
    have hne : s.historyIndex - 1 ≠ s.history.length - 1 := by omega
    rw [reducer_redo_notlast hne]
    have hsucc : s.historyIndex - 1 + 1 = s.historyIndex := by omega
    have htop : s.history.getD (s.historyIndex - 1 + 1) dfltEntry = topEntry s := by
      rw [hsucc, topEntry]
    refine state_ext ?_ ?_ ?_ rfl (by simpa using hsucc)
    · show (⟨(s.history.getD (s.historyIndex - 1 + 1) dfltEntry).crossword.name,
        redoWords (s.history.getD (s.historyIndex - 1 + 1) dfltEntry)
          (undoWords (s.history.getD s.historyIndex dfltEntry) s.crossword.words)⟩ :
          Crossword) = s.crossword
      rw [htop]
      have hcur : s.history.getD s.historyIndex dfltEntry = topEntry s := rfl
      rw [hcur, redo_undo_words h.topChange, h.topName]
    · show (s.history.getD (s.historyIndex - 1 + 1) dfltEntry).currentWordIndex =
        s.currentWordIndex
      rw [htop, h.topCwi]
    · show (s.history.getD (s.historyIndex - 1 + 1) dfltEntry).orbitCenter = s.orbitCenter
      rw [htop, h.topOrbit]

/-- Well-formed structural action sequences: every action is a structural
edit the UI can dispatch in the state where it is applied. -/
inductive WfActions : CreateCrosswordState → List CreateCrosswordAction → Prop where
  | nil (s : CreateCrosswordState) : WfActions s []
  | cons (s : CreateCrosswordState) (a : CreateCrosswordAction)
      (rest : List CreateCrosswordAction) : structuralWf s a →
      WfActions (createCrosswordReducer s a) rest → WfActions s (a :: rest)

theorem goodState_foldl {acts : List CreateCrosswordAction} :
    ∀ {s : CreateCrosswordState}, GoodState s → WfActions s acts →
      GoodState (acts.foldl createCrosswordReducer s) := by
  induction acts with
  | nil => intro s h _; exact h
  | cons a rest ih =>
    intro s h hwf
    cases hwf with
    | cons _ _ _ ha hrest =>
      rw [List.foldl_cons]
      exact ih (goodState_step h ha) hrest

/-- C2: for every well-formed sequence of structural edit actions applied
from the initial editor state, dispatching Undo once and then Redo once
returns exactly the state before the Undo — same puzzle name and word list,
same selected word index, same orbit/focus coordinate (indeed the whole
state, history included). -/
theorem undo_redo_identity (acts : List CreateCrosswordAction)
    (hwf : WfActions initialCreateState acts) :
    createCrosswordReducer
        (createCrosswordReducer (acts.foldl createCrosswordReducer initialCreateState) .Undo)
        .Redo =
      acts.foldl createCrosswordReducer initialCreateState :=
  undo_redo_of_goodState (goodState_foldl goodState_init hwf)

/-- Witness for `undo_redo_identity`: create a word, then type "HI" into it. -/
theorem undo_redo_identity_witness :
    WfActions initialCreateState [.NewWord, .SetWord ['H', 'I']] ∧
    createCrosswordReducer
        (createCrosswordReducer
          ([.NewWord, .SetWord ['H', 'I']].foldl createCrosswordReducer initialCreateState)
          .Undo)
        .Redo =
      [.NewWord, .SetWord ['H', 'I']].foldl createCrosswordReducer initialCreateState :=
  ⟨WfActions.cons _ _ _ trivial
      (WfActions.cons _ _ _ ⟨0, rfl, by decide⟩ (WfActions.nil _)),
    undo_redo_identity [.NewWord, .SetWord ['H', 'I']]
      (WfActions.cons _ _ _ trivial
        (WfActions.cons _ _ _ ⟨0, rfl, by decide⟩ (WfActions.nil _)))⟩

theorem undo_history (s : CreateCrosswordState) :
    (createCrosswordReducer s .Undo).history = s.history := by
  by_cases h0 : s.historyIndex = 0
  · rw [reducer_undo_zero h0]
  · rw [reducer_undo_pos h0]

theorem redo_history (s : CreateCrosswordState) :
    (createCrosswordReducer s .Redo).history = s.history := by
  by_cases h0 : s.historyIndex = s.history.length - 1
  · rw [reducer_redo_last h0]
  · rw [reducer_redo_notlast h0]

/-- C6: every structural edit truncates the history to the entries up to
the cursor, appends one new entry and advances the cursor by one; as a
consequence, after performing edit A, undoing it, and performing edit B
from a reachable state, the history consists of the original entries plus
B's entry — A's entry is gone — and no number of Redo actions (which never
modify the history list) can bring it back. -/
theorem history_truncation :
    (∀ (s : CreateCrosswordState) (a : CreateCrosswordAction), structuralKind a →
      (createCrosswordReducer s a).historyIndex = s.historyIndex + 1 ∧
      ∃ e, (createCrosswordReducer s a).history =
        s.history.take (s.historyIndex + 1) ++ [e]) ∧
    (∀ (s0 : CreateCrosswordState) (actA actB : CreateCrosswordAction), GoodState s0 →
      structuralKind actA → structuralKind actB →
      ∃ eA eB,
        (createCrosswordReducer s0 actA).history = s0.history ++ [eA] ∧
        (createCrosswordReducer
          (createCrosswordReducer (createCrosswordReducer s0 actA) .Undo) actB).history =
            s0.history ++ [eB] ∧
        ∀ n : Nat,
          ((fun t => createCrosswordReducer t .Redo)^[n]
            (createCrosswordReducer
              (createCrosswordReducer (createCrosswordReducer s0 actA) .Undo) actB)).history =
            s0.history ++ [eB]) := by
  have part1 : ∀ (s : CreateCrosswordState) (a : CreateCrosswordAction), structuralKind a →
      (createCrosswordReducer s a).historyIndex = s.historyIndex + 1 ∧
      ∃ e, (createCrosswordReducer s a).history =
        s.history.take (s.historyIndex + 1) ++ [e] := by
    intro s a hk
    cases a with
    | SetName name => exact ⟨rfl, _, rfl⟩
    | NewWord => exact ⟨rfl, _, rfl⟩
    | DeleteWord index => exact ⟨rfl, _, rfl⟩
    | SetStart position => exact ⟨rfl, _, rfl⟩
    | SetDirection direction => exact ⟨rfl, _, rfl⟩
    | SetWord word => exact ⟨rfl, _, rfl⟩
    | SetDescription description => exact ⟨rfl, _, rfl⟩
    | DragEnd center => exact ⟨rfl, _, rfl⟩
    | SetCrossword crossword => exact absurd hk (by simp [structuralKind])
    | SelectWord index => exact absurd hk (by simp [structuralKind])
    | SetOrbitCenter position => exact absurd hk (by simp [structuralKind])
    | ShowWordList => exact absurd hk (by simp [structuralKind])
    | Drag center => exact absurd hk (by simp [structuralKind])
    | Undo => exact absurd hk (by simp [structuralKind])
    | Redo => exact absurd hk (by simp [structuralKind])
  refine ⟨part1, ?_⟩
  intro s0 actA actB hgood hA hB
  obtain ⟨hidx1, eA, hh1⟩ := part1 s0 actA hA
  rw [take_historyIndex_succ hgood] at hh1
  have hu := @reducer_undo_pos (createCrosswordReducer s0 actA)
    (by rw [hidx1]; omega)
  have hs2hist : (createCrosswordReducer (createCrosswordReducer s0 actA) .Undo).history =
      s0.history ++ [eA] := by
    rw [hu]
    exact hh1
  have hs2idx : (createCrosswordReducer (createCrosswordReducer s0 actA) .Undo).historyIndex =
      s0.historyIndex := by
    rw [hu]
    simp [hidx1]
  obtain ⟨hidx3, eB, hh3⟩ :=
    part1 (createCrosswordReducer (createCrosswordReducer s0 actA) .Undo) actB hB
  rw [hs2idx, hs2hist] at hh3
  have hk0 : s0.historyIndex + 1 = s0.history.length := by
    have h1 : 0 < s0.history.length := List.length_pos.mpr hgood.histNe
    have h2 := hgood.idxEq
    omega
  rw [hk0, List.take_left] at hh3
  refine ⟨eA, eB, hh1, hh3, ?_⟩
  intro n
  induction n with
  | zero => exact hh3
  | succ n ih =>
    rw [Function.iterate_succ_apply', redo_history]
    exact ih

/-- Witness for `history_truncation`: both parts instantiated with creating
a word, undoing it, and renaming the puzzle from the initial state. -/
theorem history_truncation_witness :
    structuralKind CreateCrosswordAction.NewWord ∧ GoodState initialCreateState ∧
    structuralKind (CreateCrosswordAction.SetName ['a']) ∧
    ((createCrosswordReducer initialCreateState .NewWord).historyIndex =
        initialCreateState.historyIndex + 1 ∧
      ∃ e, (createCrosswordReducer initialCreateState .NewWord).history =
        initialCreateState.history.take (initialCreateState.historyIndex + 1) ++ [e]) ∧
    (∃ eA eB,
      (createCrosswordReducer initialCreateState .NewWord).history =
        initialCreateState.history ++ [eA] ∧
      (createCrosswordReducer
        (createCrosswordReducer (createCrosswordReducer initialCreateState .NewWord) .Undo)
        (.SetName ['a'])).history = initialCreateState.history ++ [eB] ∧
      ∀ n : Nat,
        ((fun t => createCrosswordReducer t .Redo)^[n]
          (createCrosswordReducer
            (createCrosswordReducer (createCrosswordReducer initialCreateState .NewWord)
              .Undo) (.SetName ['a']))).history = initialCreateState.history ++ [eB]) :=
  ⟨trivial, goodState_init, trivial,
    history_truncation.1 initialCreateState .NewWord trivial,
    history_truncation.2 initialCreateState .NewWord (.SetName ['a']) goodState_init
      trivial trivial⟩

/-- C9 (code bug): after a UI-dispatchable sequence ending in the deletion
of the word "A" whose block sits at the focus coordinate (5,0,0), the only
remaining word is empty — no remaining word has a letter block anywhere, in
particular not at the focus — yet the reducer keeps the orbit center at
(5,0,0) instead of resetting it to (0,0,0), because the empty word's
degenerate extent from `wordLetterPosition(start, direction, length - 1)`
(index −1) is treated as covering the focus. -/
theorem deleteWord_keeps_focus_without_letter_block :
    ((([.NewWord, .SetStart ⟨5, 0, 0⟩, .ShowWordList, .NewWord, .SetWord ['A'],
        .SetDescription ['d'], .ShowWordList, .DeleteWord 1] :
          List CreateCrosswordAction).foldl
        createCrosswordReducer initialCreateState).orbitCenter = ⟨5, 0, 0⟩) ∧
    ((([.NewWord, .SetStart ⟨5, 0, 0⟩, .ShowWordList, .NewWord, .SetWord ['A'],
        .SetDescription ['d'], .ShowWordList, .DeleteWord 1] :
          List CreateCrosswordAction).foldl
        createCrosswordReducer initialCreateState).crossword.words =
      [⟨[], .X, ⟨5, 0, 0⟩, []⟩]) ∧
    (∀ w ∈ (([.NewWord, .SetStart ⟨5, 0, 0⟩, .ShowWordList, .NewWord, .SetWord ['A'],
        .SetDescription ['d'], .ShowWordList, .DeleteWord 1] :
          List CreateCrosswordAction).foldl
        createCrosswordReducer initialCreateState).crossword.words,
      ∀ j : Nat, j < w.word.length →
        wordLetterPosition w.start w.direction (j : Int) ≠ ⟨5, 0, 0⟩) := by
  refine ⟨by decide, by decide, ?_⟩
  intro w hw j hj
  have hws : (([.NewWord, .SetStart ⟨5, 0, 0⟩, .ShowWordList, .NewWord, .SetWord ['A'],
      .SetDescription ['d'], .ShowWordList, .DeleteWord 1] :
        List CreateCrosswordAction).foldl
      createCrosswordReducer initialCreateState).crossword.words =
      [⟨[], .X, ⟨5, 0, 0⟩, []⟩] := by decide
  rw [hws] at hw
  rcases List.mem_singleton.1 hw with rfl
  simp at hj

end Crossword3d
